import Mathlib

/-!
Verification development for the cognitive-memory MCP server
(`memory.js` and `src/cognitive-server.js`).

Strings of the JavaScript source are modelled as `List Char` (`Str`);
the filesystem is modelled as an association list from physical paths to
file contents (`Store`).  Every definition below is a direct transcription
of the corresponding JavaScript function; side effects are made explicit
by threading the `Store`, and thrown exceptions become `Except.error`.
-/

/-- Characters of a string literal, the representation used for all
JavaScript strings in this development. -/
def str (s : String) : List Char := s.data

/-- Abbreviation for the JavaScript string type as modelled here. -/
abbrev Str := List Char

/-- Test whether `pat` is a prefix of `l` (JavaScript `String.startsWith`,
with the pattern first). -/
def isPref : Str → Str → Bool
  | [], _ => true
  | _ :: _, [] => false
  | a :: as, b :: bs => a = b && isPref as bs

/-- Split a list on every occurrence of `sep` (JavaScript
`String.split(sep)` for a one-character separator; always returns at
least one piece, and `""` splits to `[""]`). -/
def splitOnChar (sep : Char) : Str → List Str
  | [] => [[]]
  | x :: xs =>
    match splitOnChar sep xs with
    | [] => [[]]
    | y :: ys => if x = sep then [] :: y :: ys else (x :: y) :: ys

/-- Join pieces with a separator (JavaScript `Array.join(sep)`). -/
def joinWith (sep : Str) : List Str → Str
  | [] => []
  | [x] => x
  | x :: y :: ys => x ++ sep ++ joinWith sep (y :: ys)

/-- Last `n` elements of a list (JavaScript `Array.slice(-n)` for
`n > 0`: the whole array when `n` exceeds its length). -/
def takeLast (n : Nat) (xs : List α) : List α := xs.drop (xs.length - n)

/-- Decimal digits of a natural number (JavaScript number-to-string on a
nonnegative integer). -/
def natStr (n : Nat) : Str := (Nat.repr n).data

/-- Date part of an ISO timestamp: `timestamp.split('T')[0]` in the
source. -/
def dateOf (ts : Str) : Str := (splitOnChar 'T' ts).headD []

/-! ## Path resolution (Node `path.join` / `path.resolve` on POSIX paths)

`resolve(join(dir, p))` for an absolute `dir` normalizes the
concatenation `dir ++ "/" ++ p`: empty and `.` segments are dropped and
`..` pops the previous segment. -/

/-- Normalize a segment list: the effect of Node's `path.resolve` on the
segments of an absolute path. -/
def normSegs (segs : List Str) : List Str :=
  segs.foldl
    (fun acc seg =>
      if seg = [] ∨ seg = str "." then acc
      else if seg = str ".." then acc.dropLast
      else acc ++ [seg]) []

/-- Node `path.resolve` of an absolute path string. -/
def resolveAbs (s : Str) : Str :=
  '/' :: joinWith (str "/") (normSegs (splitOnChar '/' s))

/-- Node `resolve(join(root, p))` for an absolute `root`. -/
def resolveJoin (root p : Str) : Str := resolveAbs (root ++ str "/" ++ p)

/-! ## The filesystem model -/

/-- The filesystem: an association list from resolved physical paths to
file contents.  `Store.get` is `fs.readFile`/`fs.stat` visibility,
`Store.set` is `fs.writeFile` (directories are implicit). -/
abbrev Store := List (Str × Str)

/-- Content of the file at physical path `p`, if present. -/
def Store.get : Store → Str → Option Str
  | [], _ => none
  | (k, v) :: rest, p => if k = p then some v else Store.get rest p

/-- Remove the file at physical path `p` (part of `fs.rename`). -/
def Store.remove : Store → Str → Store
  | [], _ => []
  | (k, v) :: rest, p =>
    if k = p then Store.remove rest p else (k, v) :: Store.remove rest p

/-- Write the file at physical path `p` (JavaScript `fs.writeFile`:
wholesale replacement, creating the file if absent). -/
def Store.set (σ : Store) (p c : Str) : Store := (p, c) :: Store.remove σ p

/-- Move a file (JavaScript `fs.rename`); the source is known to exist at
every call site modelled here. -/
def Store.rename (σ : Store) (src dst : Str) : Store :=
  match Store.get σ src with
  | some c => Store.set (Store.remove σ src) dst c
  | none => σ

/-! ## memory.js -/

/-- Transcription of `validatePath` (memory.js): join the logical path
(plus the `.md` suffix) onto the memory directory, resolve it, and
require the result to equal the resolved memory directory or to lie
strictly inside it.  `root` stands for the `COGNITIVE_MEMORY_PATH`
environment value. -/
def validatePath (root p : Str) : Except String Str :=
  let fullPath := resolveJoin root (p ++ str ".md")
  let normalizedMemoryDir := resolveAbs root
  if isPref (normalizedMemoryDir ++ str "/") fullPath || fullPath = normalizedMemoryDir
  then .ok fullPath
  else .error "Access denied: path escapes memory directory"

/-- Transcription of `writeMemory` (memory.js): validate the path, then
write the content (`fs.mkdir` is implicit in the store model).  A
validation failure throws before anything is written. -/
def writeMemory (root p c : Str) (σ : Store) : Except String Store :=
  match validatePath root p with
  | .error e => .error e
  | .ok fullPath => .ok (Store.set σ fullPath c)

/-- Transcription of `readMemory` (memory.js): validate the path, then
read the file; a missing file is the `fs.readFile` ENOENT rejection. -/
def readMemory (root p : Str) (σ : Store) : Except String Str :=
  match validatePath root p with
  | .error e => .error e
  | .ok fullPath =>
    match Store.get σ fullPath with
    | some c => .ok c
    | none => .error "ENOENT: no such file or directory"

/-! ## cognitive-server.js: tool results -/

/-- Result object of `add_session_note`. -/
structure NoteResult where
  success : Bool
  message : Str
deriving DecidableEq

/-- Result object of `read_entity`.  It mirrors `makeResponse` in the
source exactly: there is no `offset` field. -/
structure ReadEntityResult where
  path : Str
  content : Str
  total_lines : Nat
  returned_lines : Nat
deriving DecidableEq

/-- Arguments accepted by the `read_entity` handler.  The JavaScript
function receives the whole argument object; `offset` and `limit` are
carried here because callers (and the repository's tests) pass them, but
`readEntity` destructures only `entity_path`, `tail` and `head`. -/
structure ReadEntityArgs where
  entity_path : Str
  tail : Option Int
  head : Option Int
  offset : Option Int
  limit : Option Int

/-- Result object of `write_entity`. -/
structure WriteEntityResult where
  success : Bool
  path : Str
deriving DecidableEq

/-- Result object of `synthesis_reflection`; absent JavaScript object
fields are `none`. -/
structure SynthesisResult where
  success : Bool
  message : Str
  rotated : Option Bool
  archived_to : Option Str
deriving DecidableEq

/-- One element of the `entities` argument of `deep_learn`. -/
structure DLEntity where
  path : Str
  content : Str
  anchor_summary : Str
deriving DecidableEq

/-- Result object of `deep_learn`. -/
structure DeepLearnResult where
  success : Bool
  message : Str
  entities_created : List Str
  session_reset : Bool
  session_archived : Bool
  archive_path : Option Str
  context_anchors_updated : Bool
deriving DecidableEq

/-- Result object of `learn`. -/
structure LearnResult where
  success : Bool
  message : Str
  section_updated : Str
  action : Str
deriving DecidableEq

/-! ## cognitive-server.js: addSessionNote, readEntity, writeEntity -/

/-- Transcription of `addSessionNote`: format the note, read the current
session with a caught default, append, and write back. -/
def addSessionNote (root ts note_type content importance : Str) (σ : Store) :
    Except String NoteResult × Store :=
  let formattedNote :=
    str "\n### " ++ note_type.map Char.toUpper ++ str " - " ++
    importance.map Char.toUpper ++ str " (" ++ ts ++ str ")\n" ++ content ++ str "\n"
  let currentSession :=
    match readMemory root (str "current_session") σ with
    | .ok c => c
    | .error _ => str "# Current Session\n"
  match writeMemory root (str "current_session") (currentSession ++ formattedNote) σ with
  | .ok σ' => (.ok ⟨true, note_type ++ str " note added to session"⟩, σ')
  | .error e => (.error e, σ)

/-- JavaScript truthiness test `x > 0` on an optional number (an absent
field compares as `undefined > 0`, which is false). -/
def optGtZero : Option Int → Bool
  | some v => decide (0 < v)
  | none => false

/-- Numeric value of an optional argument known to be positive. -/
def optToNat : Option Int → Nat
  | some v => v.toNat
  | none => 0

/-- Transcription of `readEntity`: read the full content, split it on
line feeds, and select `tail`, `head`, or everything.  The `offset` and
`limit` arguments are not consulted, exactly as in the source. -/
def readEntity (root : Str) (args : ReadEntityArgs) (σ : Store) :
    Except String ReadEntityResult :=
  match readMemory root args.entity_path σ with
  | .error e => .error e
  | .ok fullContent =>
    let allLines := splitOnChar '\n' fullContent
    let totalLines := allLines.length
    let makeResponse := fun (lines : List Str) =>
      ReadEntityResult.mk args.entity_path (joinWith (str "\n") lines)
        totalLines lines.length
    if optGtZero args.tail then .ok (makeResponse (takeLast (optToNat args.tail) allLines))
    else if optGtZero args.head then .ok (makeResponse (allLines.take (optToNat args.head)))
    else .ok (makeResponse allLines)

/-- Transcription of `writeEntity`. -/
def writeEntity (root p c : Str) (σ : Store) : Except String WriteEntityResult × Store :=
  match writeMemory root p c σ with
  | .ok σ' => (.ok ⟨true, p⟩, σ')
  | .error e => (.error e, σ)

/-! ## Regex scanning helpers

The source uses three regular expressions; each is modelled by an
explicit scan with identical semantics on the inputs considered:

* `/(### ${section}.*?)(\n---\n|\n##|$)/s` in `learn` — leftmost literal
  occurrence of the header text, then the earliest following terminator
  (the interpolated section name is modelled as literal text, which is
  exact for section names without regex metacharacters);
* `/^(# Context Anchors.*?\n\n)/s` in `deepLearn` — anchored literal
  followed by the earliest `"\n\n"`;
* `/\*\*Entity Path\*\*: (.+)/g` in `synthesisReflection` — one match
  per line that contains the literal text with at least one further
  character on the same line. -/

/-- Index of the leftmost occurrence of `pat` as a contiguous sublist. -/
def findSubstrAux (pat : Str) : Str → Option Nat
  | [] => if isPref pat [] then some 0 else none
  | l@(_ :: rest) =>
    if isPref pat l then some 0 else (findSubstrAux pat rest).map (· + 1)

/-- Leftmost occurrence of `pat` in `s` (JavaScript `String.match` with a
literal pattern, or lazy `.*?` scanning). -/
def findSubstr (s pat : Str) : Option Nat := findSubstrAux pat s

/-- Occurrence test: `pat` occurs in `s` at index `p`. -/
def occAt (s pat : Str) (p : Nat) : Bool := isPref pat (s.drop p)

/-- Lazy scan for the terminator alternation `\n---\n|\n##|$` of the
`learn` regex: offset of the earliest terminator in the suffix, paired
with the terminator's length (`0` for the end-of-string alternative). -/
def findTermAux : Str → Nat × Nat
  | [] => (0, 0)
  | l@(_ :: rest) =>
    if isPref (str "\n---\n") l then (0, 5)
    else if isPref (str "\n##") l then (0, 3)
    else
      let r := findTermAux rest
      (r.1 + 1, r.2)

/-- The backquote character (avoided as a literal). -/
def backquoteChar : Char := Char.ofNat 96

/-- The single-quote character (avoided as a literal). -/
def squoteChar : Char := Char.ofNat 39

/-- JavaScript `String.replace` expansion of `$`-sequences in the
replacement string: `$$`, `$&` (whole match), a dollar-backquote
(before the match), a dollar-quote (after the match), `$1` and `$2`
(the two capture groups of the `learn` regex); any other `$` is
literal. -/
def expandDollar (repl matched before after g1 g2 : Str) : Str :=
  match repl with
  | [] => []
  | x :: t =>
    if x = '$' then
      match t with
      | [] => ['$']
      | c :: t' =>
        if c = '$' then '$' :: expandDollar t' matched before after g1 g2
        else if c = '&' then matched ++ expandDollar t' matched before after g1 g2
        else if c = backquoteChar then before ++ expandDollar t' matched before after g1 g2
        else if c = squoteChar then after ++ expandDollar t' matched before after g1 g2
        else if c = '1' then g1 ++ expandDollar t' matched before after g1 g2
        else if c = '2' then g2 ++ expandDollar t' matched before after g1 g2
        else '$' :: c :: expandDollar t' matched before after g1 g2
    else x :: expandDollar t matched before after g1 g2

/-- Match test for `/\*\*Entity Path\*\*: (.+)/` on a single line: the
literal occurs and at least one character follows it (the pattern text
has 17 characters). -/
def entityRefIn (l : Str) : Bool :=
  match findSubstr l (str "**Entity Path**: ") with
  | some i => decide (i + 17 < l.length)
  | none => false

/-- Number of matches of `/\*\*Entity Path\*\*: (.+)/g`: since `.+` is
greedy and `.` stops at line feeds, the global count is one per line
containing the literal with a nonempty remainder. -/
def countEntityRefLines (s : Str) : Nat :=
  ((splitOnChar '\n' s).filter entityRefIn).length

/-- JavaScript `s.charAt(0).toUpperCase() + s.slice(1)`. -/
def capitalize : Str → Str
  | [] => []
  | c :: rest => Char.toUpper c :: rest

/-! ## cognitive-server.js: learn -/

/-- The `learningEntry` template string of `learn`. -/
def learningEntry (s ts r c : Str) : Str :=
  str "\n### " ++ s ++ str " - Updated " ++ dateOf ts ++
  str "\n\n**Rationale**: " ++ r ++ str "\n\n" ++ c ++ str "\n\n---\n\n"

/-- The fresh `me.md` template of `learn`'s catch branch. -/
def newMeTemplate (entry : Str) : Str :=
  str "# Base Instructions (me.md)\n\n*This file contains behavioral learnings that have been integrated into the base prompt.*\n*Interface files (CLAUDE.md, custom_modes.yaml, etc.) should reference this location.*\n\n" ++ entry

/-- Create branch of `learn` (its catch handler): write a fresh `me.md`
holding the preamble and the entry. -/
def learnCreate (root s entry : Str) (σ : Store) : Except String LearnResult × Store :=
  match writeMemory root (str "me") (newMeTemplate entry) σ with
  | .ok σ' =>
    (.ok ⟨true, str "Base instructions created: " ++ s, s, str "created"⟩, σ')
  | .error e => (.error e, σ)

/-- Transcription of `learn`: read `me.md`; on success locate the
section block with the regex and replace it (consuming the terminator,
with `$`-expansion of the replacement as JavaScript `replace` does) or
append the entry; any failure inside the try block falls into the
create branch. -/
def learn (root ts s c r : Str) (σ : Store) : Except String LearnResult × Store :=
  let entry := learningEntry s ts r c
  match readMemory root (str "me") σ with
  | .error _ => learnCreate root s entry σ
  | .ok existingMe =>
    match findSubstr existingMe (str "### " ++ s) with
    | some i =>
      let scanStart := i + (str "### " ++ s).length
      let t := findTermAux (existingMe.drop scanStart)
      let g1End := scanStart + t.1
      let matchEnd := g1End + t.2
      let matched := (existingMe.drop i).take (matchEnd - i)
      let group1 := (existingMe.drop i).take (g1End - i)
      let group2 := (existingMe.drop g1End).take t.2
      let updatedMe :=
        existingMe.take i ++
        expandDollar entry matched (existingMe.take i) (existingMe.drop matchEnd) group1 group2 ++
        existingMe.drop matchEnd
      match writeMemory root (str "me") updatedMe σ with
      | .ok σ' =>
        (.ok ⟨true, str "Base instructions updated: " ++ s, s, str "replaced"⟩, σ')
      | .error _ => learnCreate root s entry σ
    | none =>
      match writeMemory root (str "me") (existingMe ++ entry) σ with
      | .ok σ' =>
        (.ok ⟨true, str "Base instructions updated: " ++ s, s, str "appended"⟩, σ')
      | .error _ => learnCreate root s entry σ

/-! ## cognitive-server.js: synthesisReflection -/

/-- The reflection block template of `synthesisReflection`. -/
def reflectionContent (ts rt : Str) (ki : List Str) (ctxInfo : Str)
    (cg ff : Option Str) : Str :=
  str "\n# " ++ capitalize rt ++ str " Reflection - " ++ ts ++
  str "\n\n## Key Insights\n" ++
  joinWith (str "\n") (ki.map (fun i => str "- " ++ i)) ++ str "\n" ++
  ctxInfo ++ str "\n" ++
  (match cg with
   | some g => str "## Cognitive Growth Observed\n" ++ g ++ str "\n"
   | none => []) ++
  str "\n\n" ++
  (match ff with
   | some f => str "## Future Development Focus\n" ++ f ++ str "\n"
   | none => []) ++
  str "\n\n---\n*Generated via Dream Tool for meta-cognitive development*\n\n"

/-- Append branch of `synthesisReflection` (also the rotation catch
fallthrough): append to the existing journal, or to a fresh header when
reading it fails. -/
def journalAppend (root rt content : Str) (σ : Store) :
    Except String SynthesisResult × Store :=
  let existingJournal :=
    match readMemory root (str "dream_journal") σ with
    | .ok j => j
    | .error _ => str "# Dream Journal\n"
  match writeMemory root (str "dream_journal") (existingJournal ++ content) σ with
  | .ok σ' =>
    (.ok ⟨true, rt ++ str " reflection saved to dream journal", none, none⟩, σ')
  | .error e => (.error e, σ)

/-- Transcription of `synthesisReflection`.  `root` is the
`COGNITIVE_MEMORY_PATH` value used by memory.js; `codieDir` is the
`CODIE_MEMORY_PATH` value read inside this function for the rotation
check — `none` models the variable being unset, in which case
`join(memoryDir, ...)` throws a TypeError before any write.  The
rotation block sits inside a try/catch whose failure (including a
missed `fs.stat`) falls through to the plain append. -/
def synthesisReflection (root : Str) (codieDir : Option Str) (ts rt : Str)
    (ki : List Str) (cg ff : Option Str) (σ : Store) :
    Except String SynthesisResult × Store :=
  let dateStamp := dateOf ts
  let ctxInfo :=
    match readMemory root (str "context_anchors") σ with
    | .ok contextAnchors =>
      let n := countEntityRefLines contextAnchors
      if 0 < n then
        str "\n## Context from Anchors\nActive entities: " ++ natStr n ++ str " referenced\n"
      else []
    | .error _ => []
  let content := reflectionContent ts rt ki ctxInfo cg ff
  match codieDir with
  | none =>
    (.error "TypeError: the path argument must be of type string", σ)
  | some memoryDir =>
    let journalPath := resolveJoin memoryDir (str "dream_journal.md")
    match Store.get σ journalPath with
    | some journal =>
      if 1048576 ≤ journal.length then
        let rotatedPath := resolveJoin memoryDir (str "dream_journal_" ++ dateStamp ++ str ".md")
        let σ₁ := Store.rename σ journalPath rotatedPath
        let newJournalHeader :=
          str "# Dream Journal\n\n*Previous journal archived to: dream_journal_" ++
          dateStamp ++ str ".md*\n\n"
        match writeMemory root (str "dream_journal") (newJournalHeader ++ content) σ₁ with
        | .ok σ₂ =>
          (.ok ⟨true,
            rt ++ str " reflection saved; journal rotated (was " ++
            natStr ((journal.length + 512) / 1024) ++ str "KB)",
            some true, some (str "dream_journal_" ++ dateStamp ++ str ".md")⟩, σ₂)
        | .error _ => journalAppend root rt content σ₁
      else journalAppend root rt content σ
    | none => journalAppend root rt content σ

/-! ## cognitive-server.js: deepLearn -/

/-- The `contextAnchorsEntry` template of `deepLearn`. -/
def contextAnchorsEntry (ts : Str) (es : List DLEntity) : Str :=
  str "\n## Deep Learn Session - " ++ ts ++ str "\n" ++
  joinWith (str "\n")
    (es.map (fun e => str "- **" ++ e.path ++ str "**: " ++ e.anchor_summary)) ++
  str "\n\n---\n\n"

/-- The anchored header match `/^(# Context Anchors.*?\n\n)/s`: when the
document starts with the literal, split it at the end of the earliest
following `"\n\n"`. -/
def ctxHeaderFind (s : Str) : Option (Str × Str) :=
  if isPref (str "# Context Anchors") s then
    match findSubstr (s.drop 17) (str "\n\n") with
    | some q => some (s.take (17 + q + 2), s.drop (17 + q + 2))
    | none => none
  else none

/-- Step 1 of `deepLearn`: write every entity in order; a thrown write
aborts the loop but keeps the writes already performed. -/
def writeEntitiesLoop (root : Str) : List DLEntity → Store → Except String Unit × Store
  | [], σ => (.ok (), σ)
  | e :: rest, σ =>
    match writeMemory root e.path e.content σ with
    | .error err => (.error err, σ)
    | .ok σ' => writeEntitiesLoop root rest σ'

/-- Step 2 of `deepLearn`: insert the batch entry after the context
anchors header, prepend when the header is missing, and create the
document (the catch branch) when reading or writing fails. -/
def deepLearnStep2 (root entry : Str) (σ : Store) : Except String Store :=
  let created := writeMemory root (str "context_anchors") (str "# Context Anchors\n\n" ++ entry) σ
  match readMemory root (str "context_anchors") σ with
  | .ok existingAnchors =>
    let w :=
      match ctxHeaderFind existingAnchors with
      | some (header, rest) =>
        writeMemory root (str "context_anchors") (header ++ entry ++ rest) σ
      | none =>
        writeMemory root (str "context_anchors") (entry ++ existingAnchors) σ
    match w with
    | .ok σ' => .ok σ'
    | .error _ => created
  | .error _ => created

/-- Step 3 of `deepLearn`: archive the current session under the dated
archive path when it is present and longer than 200 characters,
tolerating its absence and a failed archive write; returns the archived
flag, the archive path variable, and the resulting store. -/
def deepLearnStep3 (root d : Str) (σ : Store) : Bool × Option Str × Store :=
  match readMemory root (str "current_session") σ with
  | .ok currentSessionContent =>
    if 200 < currentSessionContent.length then
      let archivePath := str "session_archives/" ++ d
      match writeMemory root archivePath currentSessionContent σ with
      | .ok σ' => (true, some archivePath, σ')
      | .error _ => (false, some archivePath, σ)
    else (false, none, σ)
  | .error _ => (false, none, σ)

/-- The session reset template of `deepLearn` step 4. -/
def sessionResetContent (dateStamp : Str) (archivedTo : Option Str) : Str :=
  str "# Current Session\n\n*Session reset on " ++ dateStamp ++
  str " after Deep Learn integration*\n*Previous session content integrated into structured entities*\n" ++
  (match archivedTo with
   | some ap => str "*Session archived to: " ++ ap ++ str ".md*"
   | none => []) ++
  str "\n\n"

/-- Transcription of `deepLearn`: write the batch, update the context
anchors, archive a non-trivial current session, and reset the session.
A failure in step 1 rethrows immediately (keeping the completed
writes); steps 2 and 3 tolerate their own failures; a step 4 failure
rethrows. -/
def deepLearn (root ts : Str) (entities : List DLEntity) (σ : Store) :
    Except String DeepLearnResult × Store :=
  let dateStamp := dateOf ts
  match writeEntitiesLoop root entities σ with
  | (.error e, σ₁) => (.error e, σ₁)
  | (.ok _, σ₁) =>
    let entry := contextAnchorsEntry ts entities
    let σ₂ := match deepLearnStep2 root entry σ₁ with
      | .ok σ' => σ'
      | .error _ => σ₁
    let archStep := deepLearnStep3 root dateStamp σ₂
    let sessionArchived := archStep.1
    let archivePath := archStep.2.1
    let σ₃ := archStep.2.2
    let resetDoc := sessionResetContent dateStamp (if sessionArchived then archivePath else none)
    match writeMemory root (str "current_session") resetDoc σ₃ with
    | .error e => (.error e, σ₃)
    | .ok σ₄ =>
      (.ok ⟨true,
        str "Deep Learn complete: " ++ natStr entities.length ++ str " entities created/updated" ++
        (match sessionArchived, archivePath with
         | true, some ap => str ", session archived to " ++ ap
         | _, _ => []),
        entities.map (fun e => e.path),
        true, sessionArchived, archivePath, true⟩, σ₄)

/-! ## Derived helper definitions used by the statements below -/

/-- The part of a learning entry after its `"\n### " ++ section`
header: date suffix, rationale, body and closing delimiter. -/
def entryInterior (d r c : Str) : Str :=
  str " - Updated " ++ d ++ str "\n\n**Rationale**: " ++ r ++
  str "\n\n" ++ c ++ str "\n\n---\n\n"

/-- Action tag of a `learn` outcome (empty on error). -/
def learnAction (res : Except String LearnResult × Store) : Str :=
  match res.1 with
  | .ok r => r.action
  | .error _ => []

/-- Content of the file at a physical path, defaulting to empty. -/
def contentAt (σ : Store) (p : Str) : Str := (Store.get σ p).getD []

/-- Statement abbreviation: every character of `x` avoids the list
`bad`. -/
abbrev avoids (x : Str) (bad : List Char) : Prop := ∀ ch ∈ x, ch ∉ bad

/-- Decidable equality of call outcomes, so concrete runs can be checked
by `decide`. -/
instance exceptDecEq {ε α : Type} [DecidableEq ε] [DecidableEq α] :
    DecidableEq (Except ε α) := fun a b =>
  match a, b with
  | .error e₁, .error e₂ =>
    if h : e₁ = e₂ then isTrue (by rw [h])
    else isFalse (fun hc => by cases hc; exact h rfl)
  | .ok v₁, .ok v₂ =>
    if h : v₁ = v₂ then isTrue (by rw [h])
    else isFalse (fun hc => by cases hc; exact h rfl)
  | .error _, .ok _ => isFalse (fun hc => by cases hc)
  | .ok _, .error _ => isFalse (fun hc => by cases hc)

/-! ## Character-list forms of the short pattern literals -/

/-- Character form of the horizontal-rule terminator pattern. -/
theorem str_hr : str "\n---\n" = ['\n', '-', '-', '-', '\n'] := rfl

/-- Character form of the header terminator pattern. -/
theorem str_h2 : str "\n##" = ['\n', '#', '#'] := rfl

/-- Character form of the section header lead. -/
theorem str_hdr : str "### " = ['#', '#', '#', ' '] := rfl

/-- Character form of the blank-line pattern. -/
theorem str_nlnl : str "\n\n" = ['\n', '\n'] := rfl

/-- Character form of the entry header lead. -/
theorem str_nl_hdr : str "\n### " = ['\n', '#', '#', '#', ' '] := rfl

/-- Character form of the rationale segment of a learning entry. -/
theorem str_rationale : str "\n\n**Rationale**: " = '\n' :: '\n' :: str "**Rationale**: " := rfl

/-- Character form of the tail segment of a learning entry. -/
theorem str_entry_tail :
    str "\n\n---\n\n" = '\n' :: '\n' :: '-' :: '-' :: '-' :: '\n' :: '\n' :: [] := rfl

/-! ## Basic facts about `isPref` -/

/-- A prefix test succeeds exactly when taking the pattern's length
reproduces the pattern. -/
theorem isPref_iff_take (a : Str) : ∀ b : Str, isPref a b = true ↔ b.take a.length = a := by
  induction a with
  | nil => intro b; simp [isPref]
  | cons x as ih =>
    intro b
    cases b with
    | nil => simp [isPref]
    | cons y bs => simp [isPref, ih bs, List.take_succ_cons, eq_comm (a := y) (b := x)]

/-- A successful prefix test bounds the pattern's length. -/
theorem isPref_length_le {a b : Str} (h : isPref a b = true) : a.length ≤ b.length := by
  have := (isPref_iff_take a b).mp h
  have hlen : (b.take a.length).length = a.length := by rw [this]
  rw [List.length_take] at hlen
  omega

/-- A list is a prefix of itself followed by anything. -/
theorem isPref_append_self (a c : Str) : isPref a (a ++ c) = true := by
  rw [isPref_iff_take]
  simp

/-- Extending the subject on the right preserves a successful prefix
test. -/
theorem isPref_extend {p x : Str} (y : Str) (h : isPref p x = true) :
    isPref p (x ++ y) = true := by
  have hlen := isPref_length_le h
  rw [isPref_iff_take] at h ⊢
  rw [List.take_append_of_le_length hlen, h]

/-- When the subject's first part is at least as long as the pattern,
the tail of the subject is irrelevant. -/
theorem isPref_trim {p x : Str} (y : Str) (h : p.length ≤ x.length) :
    isPref p (x ++ y) = isPref p x := by
  rcases hx : isPref p x with _ | _
  · rcases hxy : isPref p (x ++ y) with _ | _
    · rfl
    · exfalso
      rw [isPref_iff_take, List.take_append_of_le_length h] at hxy
      rw [← isPref_iff_take] at hxy
      rw [hx] at hxy
      exact Bool.false_ne_true hxy
  · exact isPref_extend y hx

/-- Characters of the subject under a successful prefix test agree with
the pattern. -/
theorem isPref_get {p l : Str} (h : isPref p l = true) (k : Nat) (hk : k < p.length) :
    l.get? k = p.get? k := by
  rw [isPref_iff_take] at h
  conv_rhs => rw [← h]
  rw [List.get?_eq_getElem?, List.get?_eq_getElem?, List.getElem?_take_of_lt hk]

/-- A prefix test for a nonempty pattern fails on an empty subject. -/
theorem isPref_nil_false {p : Str} (h : p ≠ []) : isPref p [] = false := by
  cases p with
  | nil => exact absurd rfl h
  | cons a as => rfl

/-! ## Splitting and joining lines -/

/-- A split always yields at least one piece. -/
theorem splitOnChar_ne_nil (sep : Char) (s : Str) : splitOnChar sep s ≠ [] := by
  cases s with
  | nil => simp [splitOnChar]
  | cons x xs =>
    simp only [splitOnChar]
    rcases h : splitOnChar sep xs with _ | ⟨y, ys⟩
    · simp
    · by_cases hx : x = sep <;> simp [hx]

/-- Joining the pieces of a split with the separator restores the
original list (the JavaScript `split`/`join` round trip). -/
theorem joinWith_splitOnChar (sep : Char) (s : Str) :
    joinWith [sep] (splitOnChar sep s) = s := by
  induction s with
  | nil => rfl
  | cons x xs ih =>
    simp only [splitOnChar]
    rcases h : splitOnChar sep xs with _ | ⟨y, ys⟩
    · exact absurd h (splitOnChar_ne_nil sep xs)
    · rw [h] at ih
      by_cases hx : x = sep
      · subst hx
        simp only [if_pos rfl]
        cases ys with
        | nil => simp [joinWith] at ih ⊢; simp [ih]
        | cons z zs => simp [joinWith] at ih ⊢; simp [ih]
      · simp only [if_neg hx]
        cases ys with
        | nil => simp [joinWith] at ih ⊢; simp [ih]
        | cons z zs => simp [joinWith] at ih ⊢; simp [ih]

/-! ## Occurrence positions -/

/-- No occurrence of a nonempty pattern starts at or beyond the end of
the subject. -/
theorem occAt_false_of_le {pat : Str} (s : Str) (p : Nat) (hne : pat ≠ [])
    (hp : s.length ≤ p) : occAt s pat p = false := by
  unfold occAt
  rw [List.drop_eq_nil_of_le hp]
  exact isPref_nil_false hne

/-- An occurrence inside the left part of a concatenation is an
occurrence in the whole. -/
theorem occAt_append_left {x : Str} (y pat : Str) (p : Nat)
    (h : p + pat.length ≤ x.length) :
    occAt (x ++ y) pat p = occAt x pat p := by
  unfold occAt
  rw [List.drop_append_of_le_length (by omega)]
  exact isPref_trim y (by rw [List.length_drop]; omega)

/-- An occurrence in the right part of a concatenation, shifted by the
length of the left part. -/
theorem occAt_append_right (x y pat : Str) (q : Nat) :
    occAt (x ++ y) pat (x.length + q) = occAt y pat q := by
  unfold occAt
  congr 1
  rw [List.drop_append_eq_append_drop]
  simp

/-- Occurrences inside a `take` are occurrences in the whole list. -/
theorem occAt_take (l pat : Str) (p n : Nat) (h : p + pat.length ≤ n) :
    occAt (l.take n) pat p = occAt l pat p := by
  unfold occAt
  rw [List.drop_take]
  have key : ((l.drop p).take (n - p)).take pat.length = (l.drop p).take pat.length := by
    rw [List.take_take, Nat.min_eq_left (by omega)]
  rcases hcmp : isPref pat (l.drop p) with _ | _
  · rcases hres : isPref pat ((l.drop p).take (n - p)) with _ | _
    · rfl
    · exfalso
      have h1 := (isPref_iff_take pat _).mp hres
      rw [key] at h1
      have h2 : isPref pat (l.drop p) = true := (isPref_iff_take pat _).mpr h1
      rw [hcmp] at h2
      exact Bool.false_ne_true h2
  · have h1 := (isPref_iff_take pat _).mp hcmp
    apply (isPref_iff_take pat _).mpr
    rw [key, h1]

/-- Occurrences inside a `drop`, shifted. -/
theorem occAt_drop (l pat : Str) (n q : Nat) :
    occAt (l.drop n) pat q = occAt l pat (n + q) := by
  unfold occAt
  rw [List.drop_drop]

/-- Splitting an occurrence over a concatenation whose right part starts
with a character that the pattern avoids: every occurrence lies wholly
in the left or wholly in the right part. -/
theorem occAt_append_split (x y pat : Str) (hne : pat ≠ [])
    (hblock : ∀ ch, y.head? = some ch → ch ∉ pat) (p : Nat) :
    occAt (x ++ y) pat p = true ↔
      (p + pat.length ≤ x.length ∧ occAt x pat p = true) ∨
      (x.length ≤ p ∧ occAt y pat (p - x.length) = true) := by
  constructor
  · intro h
    by_cases hl : p + pat.length ≤ x.length
    · left
      exact ⟨hl, by rw [← occAt_append_left y pat p hl]; exact h⟩
    · by_cases hr : x.length ≤ p
      · right
        refine ⟨hr, ?_⟩
        have : p = x.length + (p - x.length) := by omega
        rw [this] at h
        rw [← occAt_append_right x y pat (p - x.length)]
        exact h
      · exfalso
        -- a straddling occurrence would force `y`'s first character into `pat`
        unfold occAt at h
        cases y with
        | nil =>
          rw [List.append_nil] at h
          have hlen := isPref_length_le h
          rw [List.length_drop] at hlen
          omega
        | cons c ys =>
          have hget := isPref_get h (x.length - p) (by omega)
          rw [List.get?_drop] at hget
          have hx2 : p + (x.length - p) = x.length := by omega
          rw [hx2] at hget
          have hy : (x ++ c :: ys).get? x.length = some c := by
            rw [List.get?_append_right (Nat.le_refl _)]
            simp
          rw [hy] at hget
          exact hblock c rfl (List.get?_mem hget.symm)
  · intro h
    rcases h with ⟨hl, hocc⟩ | ⟨hr, hocc⟩
    · rw [occAt_append_left y pat p hl]
      exact hocc
    · have : p = x.length + (p - x.length) := by omega
      rw [this, occAt_append_right]
      exact hocc

/-! ## Correctness of `findSubstr` -/

/-- A successful `findSubstrAux` search returns the leftmost
occurrence. -/
theorem findSubstrAux_some (pat : Str) :
    ∀ (s : Str) (i : Nat), findSubstrAux pat s = some i →
      isPref pat (s.drop i) = true ∧ ∀ j, j < i → isPref pat (s.drop j) = false := by
  intro s
  induction s with
  | nil =>
    intro i h
    unfold findSubstrAux at h
    by_cases hp : isPref pat [] = true
    · rw [if_pos hp] at h
      cases h
      exact ⟨hp, fun j hj => absurd hj (Nat.not_lt_zero j)⟩
    · rw [if_neg hp] at h
      cases h
  | cons x rest ih =>
    intro i h
    unfold findSubstrAux at h
    by_cases hp : isPref pat (x :: rest) = true
    · rw [if_pos hp] at h
      cases h
      exact ⟨hp, fun j hj => absurd hj (Nat.not_lt_zero j)⟩
    · rw [if_neg hp] at h
      rcases hrec : findSubstrAux pat rest with _ | i'
      · rw [hrec] at h; cases h
      · rw [hrec] at h
        simp at h
        subst h
        obtain ⟨h1, h2⟩ := ih i' hrec
        refine ⟨by simpa using h1, ?_⟩
        intro j hj
        cases j with
        | zero =>
          rw [List.drop_zero]
          exact Bool.of_not_eq_true hp
        | succ j' =>
          rw [List.drop_succ_cons]
          exact h2 j' (by omega)

/-- Any occurrence guarantees that the search succeeds at or before that
position. -/
theorem findSubstrAux_of_occ (pat : Str) :
    ∀ (s : Str) (j : Nat), isPref pat (s.drop j) = true →
      ∃ i, findSubstrAux pat s = some i ∧ i ≤ j := by
  intro s
  induction s with
  | nil =>
    intro j h
    rw [List.drop_nil] at h
    exact ⟨0, by unfold findSubstrAux; rw [if_pos h], Nat.zero_le j⟩
  | cons x rest ih =>
    intro j h
    by_cases hp : isPref pat (x :: rest) = true
    · exact ⟨0, by unfold findSubstrAux; rw [if_pos hp], Nat.zero_le j⟩
    · cases j with
      | zero => rw [List.drop_zero] at h; exact absurd h hp
      | succ j' =>
        rw [List.drop_succ_cons] at h
        obtain ⟨i', hi', hle⟩ := ih j' h
        refine ⟨i' + 1, ?_, by omega⟩
        unfold findSubstrAux
        rw [if_neg hp, hi']
        rfl

/-- Specification of `findSubstr` on the `occAt` predicate. -/
theorem findSubstr_spec {s pat : Str} {i : Nat} (h : findSubstr s pat = some i) :
    occAt s pat i = true ∧ ∀ j, j < i → occAt s pat j = false :=
  findSubstrAux_some pat s i h

/-- The unique occurrence position is what `findSubstr` returns. -/
theorem findSubstr_of_unique {s pat : Str} {i : Nat} (hocc : occAt s pat i = true)
    (huniq : ∀ j, occAt s pat j = true → j = i) : findSubstr s pat = some i := by
  obtain ⟨i', hi', hle⟩ := findSubstrAux_of_occ pat s i hocc
  have := (findSubstrAux_some pat s i' hi').1
  have hii : i' = i := huniq i' this
  rw [hii] at hi'
  exact hi'

/-! ## Behaviour of the terminator scan -/

/-- Terminator scan step: a position matching neither terminator is
skipped. -/
theorem findTermAux_cons_skip (x : Char) (l : Str)
    (h1 : isPref (str "\n---\n") (x :: l) = false)
    (h2 : isPref (str "\n##") (x :: l) = false) :
    findTermAux (x :: l) = ((findTermAux l).1 + 1, (findTermAux l).2) := by
  simp [findTermAux, h1, h2]

/-- Terminator scan: a position carrying the horizontal-rule terminator
is the result. -/
theorem findTermAux_found (l : Str) (h : isPref (str "\n---\n") l = true) :
    findTermAux l = (0, 5) := by
  cases l with
  | nil => rw [str_hr] at h; cases h
  | cons x xs => simp [findTermAux, h]

/-- Neither terminator matches at a character other than a line feed. -/
theorem term_checks_false (x : Char) (l : Str) (hx : x ≠ '\n') :
    isPref (str "\n---\n") (x :: l) = false ∧ isPref (str "\n##") (x :: l) = false := by
  rw [str_hr, str_h2]
  simp [isPref]
  constructor <;> intro h <;> exact absurd h.symm hx

/-- The scan skips over a segment without line feeds. -/
theorem findTermAux_skip (x y : Str) (hx : ∀ ch ∈ x, ch ≠ '\n') :
    findTermAux (x ++ y) = ((findTermAux y).1 + x.length, (findTermAux y).2) := by
  induction x with
  | nil => simp
  | cons c cs ih =>
    have hc : c ≠ '\n' := hx c (List.mem_cons_self c cs)
    obtain ⟨h1, h2⟩ := term_checks_false c (cs ++ y) hc
    rw [List.cons_append, findTermAux_cons_skip c (cs ++ y) h1 h2,
      ih (fun ch hch => hx ch (List.mem_cons_of_mem c hch))]
    simp
    omega

/-- Neither terminator matches at a line feed followed by another line
feed. -/
theorem term_checks_false_nlnl (l : Str) :
    isPref (str "\n---\n") ('\n' :: '\n' :: l) = false ∧
    isPref (str "\n##") ('\n' :: '\n' :: l) = false := by
  rw [str_hr, str_h2]
  simp [isPref]

/-- Neither terminator matches at a line feed followed by a character
other than `-`, `#` and a line feed. -/
theorem term_checks_false_nl_other (x : Char) (l : Str)
    (h1 : x ≠ '-') (h2 : x ≠ '#') :
    isPref (str "\n---\n") ('\n' :: x :: l) = false ∧
    isPref (str "\n##") ('\n' :: x :: l) = false := by
  rw [str_hr, str_h2]
  simp [isPref]
  constructor <;> intro h <;> [exact absurd h.symm h1; exact absurd h.symm h2]

/-- Character form of the rationale literal's head. -/
theorem str_rationale2 : str "**Rationale**: " = '*' :: str "*Rationale**: " := rfl

/-- Neither terminator matches at a line feed followed by a segment whose
first character (as a whole) is neither `-` nor `#`. -/
theorem term_checks_false_nl_seg (c X : Str)
    (hc0 : ∀ ch, c.head? = some ch → ch ≠ '-' ∧ ch ≠ '#')
    (hX : X.head? = some '\n') :
    isPref (str "\n---\n") ('\n' :: (c ++ X)) = false ∧
    isPref (str "\n##") ('\n' :: (c ++ X)) = false := by
  cases c with
  | nil =>
    cases X with
    | nil => cases hX
    | cons x xs =>
      simp only [List.head?_cons, Option.some.injEq] at hX
      subst hX
      simpa using term_checks_false_nlnl xs
  | cons c0 cs =>
    obtain ⟨h1, h2⟩ := hc0 c0 rfl
    simpa using term_checks_false_nl_other c0 (cs ++ X) h1 h2

/-- Scanning the interior of a learning entry (everything after its
header, with an arbitrary continuation): the earliest terminator is the
`\n---\n` inside the entry's closing `\n\n---\n\n`, provided the date,
rationale and body contain no line feeds and the body starts with
neither `-` nor `#`. -/
theorem findTermAux_interior (d r c y : Str)
    (hd : ∀ ch ∈ d, ch ≠ '\n') (hr : ∀ ch ∈ r, ch ≠ '\n') (hc : ∀ ch ∈ c, ch ≠ '\n')
    (hc0 : ∀ ch, c.head? = some ch → ch ≠ '-' ∧ ch ≠ '#') :
    findTermAux (str " - Updated " ++ d ++ str "\n\n**Rationale**: " ++ r ++
        str "\n\n" ++ c ++ str "\n\n---\n\n" ++ y) =
      (31 + d.length + r.length + c.length, 5) := by
  have h1 : ∀ ch ∈ str " - Updated ", ch ≠ '\n' := by decide
  have h2 : ∀ ch ∈ str "*Rationale**: ", ch ≠ '\n' := by decide
  simp only [List.append_assoc]
  rw [str_rationale, str_rationale2, str_nlnl, str_entry_tail]
  simp only [List.cons_append, List.nil_append]
  rw [findTermAux_skip (str " - Updated ") _ h1]
  rw [findTermAux_skip d _ hd]
  rw [findTermAux_cons_skip _ _ (term_checks_false_nlnl _).1 (term_checks_false_nlnl _).2]
  rw [findTermAux_cons_skip _ _
    (term_checks_false_nl_other '*' _ (by decide) (by decide)).1
    (term_checks_false_nl_other '*' _ (by decide) (by decide)).2]
  rw [show ('*' : Char) :: (str "*Rationale**: " ++ (r ++ ('\n' :: '\n' :: (c ++
      ('\n' :: '\n' :: '-' :: '-' :: '-' :: '\n' :: '\n' :: y))))) =
    (str "**Rationale**: ") ++ (r ++ ('\n' :: '\n' :: (c ++
      ('\n' :: '\n' :: '-' :: '-' :: '-' :: '\n' :: '\n' :: y)))) from rfl]
  rw [findTermAux_skip (str "**Rationale**: ") _ (by decide)]
  rw [findTermAux_skip r _ hr]
  rw [findTermAux_cons_skip _ _ (term_checks_false_nlnl _).1 (term_checks_false_nlnl _).2]
  have hseg := term_checks_false_nl_seg c
    ('\n' :: '\n' :: '-' :: '-' :: '-' :: '\n' :: '\n' :: y) hc0 rfl
  rw [findTermAux_cons_skip _ _ hseg.1 hseg.2]
  rw [findTermAux_skip c _ hc]
  rw [findTermAux_cons_skip _ _ (term_checks_false_nlnl _).1 (term_checks_false_nlnl _).2]
  rw [findTermAux_found ('\n' :: '-' :: '-' :: '-' :: '\n' :: ('\n' :: y))
    (by rw [str_hr]; simp [isPref])]
  have e1 : (str " - Updated ").length = 11 := rfl
  have e2 : (str "**Rationale**: ").length = 15 := rfl
  simp only [e1, e2]
  have harith : 0 + 1 + c.length + 1 + 1 + r.length + 15 + 1 + 1 + d.length + 11 =
      31 + d.length + r.length + c.length := by omega
  rw [harith]

/-! ## Occurrences of a section header inside a learning entry -/

/-- Decomposition of a learning entry into a leading line feed, the
header lead, the section name and the interior. -/
theorem learningEntry_decomp (s ts r c : Str) :
    learningEntry s ts r c =
      '\n' :: '#' :: '#' :: '#' :: ' ' :: (s ++ entryInterior (dateOf ts) r c) := by
  unfold learningEntry entryInterior
  rw [str_nl_hdr]
  simp [List.append_assoc]

/-- The interior of a learning entry contains no `#` when the date,
rationale and body avoid it. -/
theorem no_hash_interior (d r c : Str) (hd : ∀ ch ∈ d, ch ≠ '#')
    (hr : ∀ ch ∈ r, ch ≠ '#') (hc : ∀ ch ∈ c, ch ≠ '#') :
    ∀ ch ∈ entryInterior d r c, ch ≠ '#' := by
  intro ch h
  unfold entryInterior at h
  simp only [List.append_assoc, List.mem_append] at h
  rcases h with h | h | h | h | h | h | h
  · exact (by decide : ∀ x ∈ str " - Updated ", x ≠ '#') ch h
  · exact hd ch h
  · exact (by decide : ∀ x ∈ str "\n\n**Rationale**: ", x ≠ '#') ch h
  · exact hr ch h
  · exact (by decide : ∀ x ∈ str "\n\n", x ≠ '#') ch h
  · exact hc ch h
  · exact (by decide : ∀ x ∈ str "\n\n---\n\n", x ≠ '#') ch h

/-- Inside `'\n' :: "### " :: s ++ mid` with `s` and `mid` free of `#`,
the header text `"### " ++ s` occurs exactly at position `1`. -/
theorem occAt_entry_shape (s mid : Str) (p : Nat)
    (hs : ∀ ch ∈ s, ch ≠ '#') (hmid : ∀ ch ∈ mid, ch ≠ '#') :
    occAt ('\n' :: '#' :: '#' :: '#' :: ' ' :: (s ++ mid)) (str "### " ++ s) p = true ↔
      p = 1 := by
  constructor
  · intro h
    rcases p with _ | _ | _ | _ | _ | k
    · exfalso
      unfold occAt at h
      rw [List.drop_zero, str_hdr] at h
      simp [isPref] at h
    · rfl
    · exfalso
      unfold occAt at h
      rw [show ('\n' :: '#' :: '#' :: '#' :: ' ' :: (s ++ mid)).drop 2 =
        '#' :: '#' :: ' ' :: (s ++ mid) from rfl, str_hdr] at h
      simp [isPref] at h
    · exfalso
      unfold occAt at h
      rw [show ('\n' :: '#' :: '#' :: '#' :: ' ' :: (s ++ mid)).drop 3 =
        '#' :: ' ' :: (s ++ mid) from rfl, str_hdr] at h
      simp [isPref] at h
    · exfalso
      unfold occAt at h
      rw [show ('\n' :: '#' :: '#' :: '#' :: ' ' :: (s ++ mid)).drop 4 =
        ' ' :: (s ++ mid) from rfl, str_hdr] at h
      simp [isPref] at h
    · exfalso
      unfold occAt at h
      rw [show ('\n' :: '#' :: '#' :: '#' :: ' ' :: (s ++ mid)).drop (k + 5) =
        (s ++ mid).drop k from rfl] at h
      have hhd := isPref_get h 0 (by rw [str_hdr]; simp)
      rw [show (str "### " ++ s).get? 0 = some '#' from by rw [str_hdr]; rfl] at hhd
      cases hdrop : (s ++ mid).drop k with
      | nil => rw [hdrop] at hhd; cases hhd
      | cons a as =>
        rw [hdrop] at hhd
        simp only [List.get?_cons_zero, Option.some.injEq] at hhd
        have hmem : a ∈ s ++ mid :=
          List.mem_of_mem_drop (hdrop ▸ List.mem_cons_self a as)
        rcases List.mem_append.mp hmem with hin | hin
        · exact hs a hin hhd
        · exact hmid a hin hhd
  · intro h
    subst h
    unfold occAt
    rw [show ('\n' :: '#' :: '#' :: '#' :: ' ' :: (s ++ mid)).drop 1 =
      '#' :: '#' :: '#' :: ' ' :: (s ++ mid) from rfl]
    rw [show ('#' : Char) :: '#' :: '#' :: ' ' :: (s ++ mid) =
      (str "### " ++ s) ++ mid from by rw [str_hdr]; simp]
    exact isPref_append_self _ _

/-! ## Replacement expansion and store lemmas -/

/-- A replacement string without `$` characters expands to itself. -/
theorem expandDollar_id (repl matched before after g1 g2 : Str)
    (h : ∀ ch ∈ repl, ch ≠ '$') :
    expandDollar repl matched before after g1 g2 = repl := by
  induction repl with
  | nil => rfl
  | cons x t ih =>
    have hx : x ≠ '$' := h x (List.mem_cons_self x t)
    unfold expandDollar
    rw [if_neg hx, ih (fun ch hch => h ch (List.mem_cons_of_mem x hch))]

/-- Reading back the path just written. -/
theorem Store.get_set_same (σ : Store) (p c : Str) : (σ.set p c).get p = some c := by
  unfold Store.set Store.get
  rw [if_pos rfl]

/-- Removal does not affect other paths. -/
theorem Store.get_remove_ne (σ : Store) (p q : Str) (h : p ≠ q) :
    (σ.remove p).get q = σ.get q := by
  induction σ with
  | nil => rfl
  | cons e rest ih =>
    obtain ⟨k, v⟩ := e
    by_cases hk : k = p
    · subst hk
      simp only [Store.remove, eq_self_iff_true, if_true]
      rw [ih]
      simp only [Store.get]
      rw [if_neg h]
    · simp only [Store.remove, if_neg hk]
      simp only [Store.get]
      by_cases hq : k = q
      · rw [if_pos hq, if_pos hq]
      · rw [if_neg hq, if_neg hq, ih]

/-- A write does not affect other paths. -/
theorem Store.get_set_ne (σ : Store) (p c q : Str) (h : p ≠ q) :
    (σ.set p c).get q = σ.get q := by
  unfold Store.set
  simp only [Store.get]
  rw [if_neg h]
  exact Store.get_remove_ne σ p q h

/-! ## Evaluation lemmas for the memory primitives and readEntity -/

/-- Taking more than the length is the same as taking the minimum. -/
theorem take_min (xs : List α) (n : Nat) : xs.take n = xs.take (min n xs.length) := by
  rw [List.take_eq_take]
  simp [Nat.min_assoc]

/-- Reading a present document. -/
theorem readMemory_ok {root p fp : Str} (σ : Store) (c : Str)
    (hv : validatePath root p = .ok fp) (hg : Store.get σ fp = some c) :
    readMemory root p σ = .ok c := by
  simp [readMemory, hv, hg]

/-- Reading an absent document rejects with ENOENT. -/
theorem readMemory_absent {root p fp : Str} (σ : Store)
    (hv : validatePath root p = .ok fp) (hg : Store.get σ fp = none) :
    readMemory root p σ = .error "ENOENT: no such file or directory" := by
  simp [readMemory, hv, hg]

/-- Writing through a validated path. -/
theorem writeMemory_ok {root p fp : Str} (c : Str) (σ : Store)
    (hv : validatePath root p = .ok fp) :
    writeMemory root p c σ = .ok (σ.set fp c) := by
  unfold writeMemory
  rw [hv]

/-- Positive `tail` wins regardless of the other arguments. -/
theorem readEntity_tail_eval (root p content : Str) (σ : Store) (t : Int)
    (hd off lim : Option Int)
    (hread : readMemory root p σ = .ok content) (ht : 0 < t) :
    readEntity root ⟨p, some t, hd, off, lim⟩ σ = .ok
      ⟨p, joinWith (str "\n") (takeLast t.toNat (splitOnChar '\n' content)),
        (splitOnChar '\n' content).length,
        (takeLast t.toNat (splitOnChar '\n' content)).length⟩ := by
  unfold readEntity
  rw [hread]
  simp [optGtZero, optToNat, ht]

/-- Positive `head` (with no positive `tail`) selects the first lines. -/
theorem readEntity_head_eval (root p content : Str) (σ : Store) (tl : Option Int) (h : Int)
    (off lim : Option Int)
    (hread : readMemory root p σ = .ok content) (htl : optGtZero tl = false) (hh : 0 < h) :
    readEntity root ⟨p, tl, some h, off, lim⟩ σ = .ok
      ⟨p, joinWith (str "\n") ((splitOnChar '\n' content).take h.toNat),
        (splitOnChar '\n' content).length,
        ((splitOnChar '\n' content).take h.toNat).length⟩ := by
  unfold readEntity
  rw [hread]
  simp only [htl, Bool.false_eq_true, if_false,
    show optGtZero (some h) = decide (0 < h) from rfl,
    show optToNat (some h) = h.toNat from rfl]
  simp [hh]

/-- With no positive selector every line is returned. -/
theorem readEntity_all_eval (root p content : Str) (σ : Store) (tl hd off lim : Option Int)
    (hread : readMemory root p σ = .ok content)
    (htl : optGtZero tl = false) (hhd : optGtZero hd = false) :
    readEntity root ⟨p, tl, hd, off, lim⟩ σ = .ok
      ⟨p, joinWith (str "\n") (splitOnChar '\n' content),
        (splitOnChar '\n' content).length, (splitOnChar '\n' content).length⟩ := by
  unfold readEntity
  rw [hread]
  simp [htl, hhd]

/-- Step 3 of `deepLearn` on an absent session: nothing to archive. -/
theorem deepLearnStep3_absent (root d : Str) (σ : Store) (sessFp : Str)
    (hvs : validatePath root (str "current_session") = .ok sessFp)
    (hgs : Store.get σ sessFp = none) :
    deepLearnStep3 root d σ = (false, none, σ) := by
  unfold deepLearnStep3
  rw [readMemory_absent σ hvs hgs]

/-- Step 3 of `deepLearn` on a non-trivial session: archived under the
dated path. -/
theorem deepLearnStep3_archives (root d : Str) (σ : Store) (sessFp archFp scs : Str)
    (hvs : validatePath root (str "current_session") = .ok sessFp)
    (hva : validatePath root (str "session_archives/" ++ d) = .ok archFp)
    (hgs : Store.get σ sessFp = some scs) (hbig : 200 < scs.length) :
    deepLearnStep3 root d σ =
      (true, some (str "session_archives/" ++ d), σ.set archFp scs) := by
  unfold deepLearnStep3
  rw [readMemory_ok σ scs hvs hgs]
  simp only []
  rw [if_pos hbig]
  rw [writeMemory_ok scs σ hva]

/-- Validation fails exactly when the resolved location neither lies
strictly inside the resolved root nor equals it. -/
theorem validatePath_err (root p : Str)
    (h1 : isPref (resolveAbs root ++ str "/") (resolveJoin root (p ++ str ".md")) = false)
    (h2 : resolveJoin root (p ++ str ".md") ≠ resolveAbs root) :
    validatePath root p = .error "Access denied: path escapes memory directory" := by
  unfold validatePath
  rw [if_neg]
  simp [h1, h2]

/-! ## C1 -/

/-- C1: a logical path whose join-and-resolve against Root lands neither
strictly inside Root nor on Root itself is rejected by the Path Sandbox
with the path-escape error, and every operation built on it — reading,
writing, `read_entity`, `write_entity` — fails with that error and
leaves the store untouched; conversely every physical location the
sandbox does produce equals Root or lies strictly inside it. -/
theorem c1_path_escape_rejected (root p c : Str) (σ : Store) (tl hd off lim : Option Int)
    (h1 : isPref (resolveAbs root ++ str "/") (resolveJoin root (p ++ str ".md")) = false)
    (h2 : resolveJoin root (p ++ str ".md") ≠ resolveAbs root) :
    validatePath root p = .error "Access denied: path escapes memory directory" ∧
    readMemory root p σ = .error "Access denied: path escapes memory directory" ∧
    writeMemory root p c σ = .error "Access denied: path escapes memory directory" ∧
    readEntity root ⟨p, tl, hd, off, lim⟩ σ =
      .error "Access denied: path escapes memory directory" ∧
    writeEntity root p c σ = (.error "Access denied: path escapes memory directory", σ) ∧
    (∀ q fp, validatePath root q = .ok fp →
      isPref (resolveAbs root ++ str "/") fp = true ∨ fp = resolveAbs root) := by
  have hval := validatePath_err root p h1 h2
  refine ⟨hval, ?_, ?_, ?_, ?_, ?_⟩
  · simp [readMemory, hval]
  · simp [writeMemory, hval]
  · simp [readEntity, readMemory, hval]
  · simp [writeEntity, writeMemory, hval]
  · intro q fp h
    unfold validatePath at h
    simp only [] at h
    split at h
    case isTrue hc =>
      cases h
      simpa using hc
    case isFalse hc => cases h

/-- Witness for C1 at the concrete root `/memory` and the traversal path
`../secret`. -/
theorem c1_path_escape_rejected_witness :
    (isPref (resolveAbs (str "/memory") ++ str "/")
        (resolveJoin (str "/memory") (str "../secret" ++ str ".md")) = false ∧
      resolveJoin (str "/memory") (str "../secret" ++ str ".md") ≠ resolveAbs (str "/memory")) ∧
    validatePath (str "/memory") (str "../secret") =
      .error "Access denied: path escapes memory directory" ∧
    writeMemory (str "/memory") (str "../secret") (str "x") [] =
      .error "Access denied: path escapes memory directory" := by
  refine ⟨by decide, ?_, ?_⟩
  · exact (c1_path_escape_rejected (str "/memory") (str "../secret") (str "x") []
      none none none none (by decide) (by decide)).1
  · exact (c1_path_escape_rejected (str "/memory") (str "../secret") (str "x") []
      none none none none (by decide) (by decide)).2.2.1

/-! ## C2 -/

/-- C2: for a stored document of `N` lines, `head = h` returns exactly
the first `min(h, N)` lines joined on line feeds, `tail = t` returns
exactly the last `min(t, N)` lines, and both report `total_lines = N`
and `returned_lines` equal to the number of returned lines. -/
theorem c2_pagination_head_tail (root p content fp : Str) (σ : Store) (h t : Int)
    (hv : validatePath root p = .ok fp) (hg : Store.get σ fp = some content)
    (hh : 0 < h) (ht : 0 < t) :
    readEntity root ⟨p, none, some h, none, none⟩ σ = .ok
      ⟨p,
        joinWith (str "\n")
          ((splitOnChar '\n' content).take (min h.toNat (splitOnChar '\n' content).length)),
        (splitOnChar '\n' content).length,
        min h.toNat (splitOnChar '\n' content).length⟩ ∧
    readEntity root ⟨p, some t, none, none, none⟩ σ = .ok
      ⟨p,
        joinWith (str "\n")
          ((splitOnChar '\n' content).drop
            ((splitOnChar '\n' content).length - min t.toNat (splitOnChar '\n' content).length)),
        (splitOnChar '\n' content).length,
        min t.toNat (splitOnChar '\n' content).length⟩ := by
  have hread := readMemory_ok σ content hv hg
  set lines := splitOnChar '\n' content with hlines
  constructor
  · rw [readEntity_head_eval root p content σ none h none none hread rfl hh]
    rw [← take_min lines h.toNat]
    rw [List.length_take]
  · rw [readEntity_tail_eval root p content σ t none none none hread ht]
    unfold takeLast
    have hdrop : lines.length - t.toNat = lines.length - min t.toNat lines.length := by omega
    rw [List.length_drop, hdrop]
    have hlen : lines.length - (lines.length - min t.toNat lines.length) =
        min t.toNat lines.length := by omega
    rw [hlen]

/-- Witness for C2 on a four-line document with `head = 2` and
`tail = 3`. -/
theorem c2_pagination_head_tail_witness :
    validatePath (str "/m") (str "doc") = .ok (str "/m/doc.md") ∧
    readEntity (str "/m") ⟨str "doc", none, some 2, none, none⟩
      [(str "/m/doc.md", str "a\nb\nc\nd")] = .ok ⟨str "doc", str "a\nb", 4, 2⟩ ∧
    readEntity (str "/m") ⟨str "doc", some 3, none, none, none⟩
      [(str "/m/doc.md", str "a\nb\nc\nd")] = .ok ⟨str "doc", str "b\nc\nd", 4, 3⟩ := by
  have hmain := c2_pagination_head_tail (str "/m") (str "doc") (str "a\nb\nc\nd")
    (str "/m/doc.md") [(str "/m/doc.md", str "a\nb\nc\nd")] 2 3
    (by decide) (by decide) (by decide) (by decide)
  refine ⟨by decide, ?_, ?_⟩
  · rw [hmain.1]; decide
  · rw [hmain.2]; decide

/-! ## C3 -/

/-- C3 (divergence witness): `readEntity` ignores `offset` and `limit`
entirely — on a three-line document a request with `offset = 100` and
`limit = 5` returns all three lines with no offset reported, where the
specification (and the repository's own test suite) require zero
returned lines and an `offset` field. -/
theorem c3_offset_limit_ignored :
    readEntity (str "/m") ⟨str "t", none, none, some 100, some 5⟩
      [(str "/m/t.md", str "L1\nL2\nL3")] =
      .ok ⟨str "t", str "L1\nL2\nL3", 3, 3⟩ := by decide

/-! ## C10 -/

/-- C10: a positive `tail` takes precedence over any supplied `head`
(the call behaves exactly like a tail-only call), and when neither
selector is positive — absent, zero or negative — the entire document
is returned with `returned_lines = total_lines`. -/
theorem c10_selector_policy (root p content fp : Str) (σ : Store)
    (hv : validatePath root p = .ok fp) (hg : Store.get σ fp = some content) :
    (∀ (t : Int) (hd off lim : Option Int), 0 < t →
      readEntity root ⟨p, some t, hd, off, lim⟩ σ =
        readEntity root ⟨p, some t, none, none, none⟩ σ) ∧
    (∀ tl hd off lim : Option Int, optGtZero tl = false → optGtZero hd = false →
      readEntity root ⟨p, tl, hd, off, lim⟩ σ = .ok
        ⟨p, content, (splitOnChar '\n' content).length,
          (splitOnChar '\n' content).length⟩) := by
  have hread := readMemory_ok σ content hv hg
  constructor
  · intro t hd off lim ht
    rw [readEntity_tail_eval root p content σ t hd off lim hread ht,
      readEntity_tail_eval root p content σ t none none none hread ht]
  · intro tl hd off lim htl hhd
    rw [readEntity_all_eval root p content σ tl hd off lim hread htl hhd]
    have hjoin : joinWith (str "\n") (splitOnChar '\n' content) = content :=
      joinWith_splitOnChar '\n' content
    rw [hjoin]

/-- Witness for C10: `tail = 1` beats `head = 2`, and a zero/negative
pair returns the whole two-line document. -/
theorem c10_selector_policy_witness :
    readEntity (str "/m") ⟨str "d", some 1, some 2, none, none⟩
      [(str "/m/d.md", str "x\ny")] =
      readEntity (str "/m") ⟨str "d", some 1, none, none, none⟩
        [(str "/m/d.md", str "x\ny")] ∧
    readEntity (str "/m") ⟨str "d", some 0, some (-3), none, none⟩
      [(str "/m/d.md", str "x\ny")] = .ok ⟨str "d", str "x\ny", 2, 2⟩ := by
  have hmain := c10_selector_policy (str "/m") (str "d") (str "x\ny") (str "/m/d.md")
    [(str "/m/d.md", str "x\ny")] (by decide) (by decide)
  exact ⟨hmain.1 1 (some 2) none none (by decide),
    (hmain.2 (some 0) (some (-3)) none none (by decide) (by decide)).trans (by decide)⟩

/-! ## C4 -/

/-- C4 (divergence witness): `synthesisReflection` derives the journal
path from the `CODIE_MEMORY_PATH` environment variable while every
other memory operation uses `COGNITIVE_MEMORY_PATH`; with only the
latter configured (as the repository's jest setup does) the
`join(memoryDir, ...)` call throws before any write, so no reflection
is appended, no rotation is reported, and the store is unchanged. -/
theorem c4_rotation_env_mismatch :
    synthesisReflection (str "/m") none (str "2025-06-01T00:00:00Z") (str "daily")
      [str "insight"] none none [] =
      (.error "TypeError: the path argument must be of type string", []) := by decide

/-! ## C8 -/

/-- C8: a missing *target* document makes `readEntity` fail with the
ENOENT (NotFound) rejection, while every best-effort read of an optional
collaborator document treats absence as "absent, proceed with a fresh
default": `addSessionNote` starts a fresh session header, `learn`
creates `me.md` with action `created`, `deepLearn` creates the context
anchors ledger with its standard header, and `synthesisReflection`
starts a fresh dream journal — none of these calls fails for that
reason. -/
theorem c8_absent_vs_error (root ts : Str) (σ : Store)
    (p fp sessFp meFp ctxFp jFp : Str) (codieDir : Str)
    (hv : validatePath root p = .ok fp) (hg : Store.get σ fp = none)
    (hvs : validatePath root (str "current_session") = .ok sessFp)
    (hgs : Store.get σ sessFp = none)
    (hvm : validatePath root (str "me") = .ok meFp)
    (hgm : Store.get σ meFp = none)
    (hvc : validatePath root (str "context_anchors") = .ok ctxFp)
    (hgc : Store.get σ ctxFp = none)
    (hvj : validatePath root (str "dream_journal") = .ok jFp)
    (hgj : Store.get σ jFp = none)
    (hcj : Store.get σ (resolveJoin codieDir (str "dream_journal.md")) = none)
    (hne : ctxFp ≠ sessFp)
    (nt c imp s r rt : Str) (ki : List Str) (cg ff : Option Str) :
    readEntity root ⟨p, none, none, none, none⟩ σ =
      .error "ENOENT: no such file or directory" ∧
    addSessionNote root ts nt c imp σ =
      (.ok ⟨true, nt ++ str " note added to session"⟩,
        σ.set sessFp (str "# Current Session\n" ++
          (str "\n### " ++ nt.map Char.toUpper ++ str " - " ++ imp.map Char.toUpper ++
            str " (" ++ ts ++ str ")\n" ++ c ++ str "\n"))) ∧
    learn root ts s c r σ =
      (.ok ⟨true, str "Base instructions created: " ++ s, s, str "created"⟩,
        σ.set meFp (newMeTemplate (learningEntry s ts r c))) ∧
    (∃ res σ', deepLearn root ts [] σ = (.ok res, σ') ∧
      Store.get σ' ctxFp =
        some (str "# Context Anchors\n\n" ++ contextAnchorsEntry ts [])) ∧
    synthesisReflection root (some codieDir) ts rt ki cg ff σ =
      (.ok ⟨true, rt ++ str " reflection saved to dream journal", none, none⟩,
        σ.set jFp (str "# Dream Journal\n" ++
          reflectionContent ts rt ki
            (match readMemory root (str "context_anchors") σ with
             | .ok contextAnchors =>
               if 0 < countEntityRefLines contextAnchors then
                 str "\n## Context from Anchors\nActive entities: " ++
                   natStr (countEntityRefLines contextAnchors) ++ str " referenced\n"
               else []
             | .error _ => []) cg ff)) := by
  have hreadSess := readMemory_absent σ hvs hgs
  have hreadMe := readMemory_absent σ hvm hgm
  have hreadCtx := readMemory_absent σ hvc hgc
  have hreadJ := readMemory_absent σ hvj hgj
  refine ⟨?_, ?_, ?_, ?_, ?_⟩
  · simp [readEntity, readMemory_absent σ hv hg]
  · unfold addSessionNote
    rw [hreadSess]
    simp only []
    rw [writeMemory_ok _ σ hvs]
  · unfold learn
    rw [hreadMe]
    simp only []
    unfold learnCreate
    rw [writeMemory_ok _ σ hvm]
  · refine ⟨⟨true,
      str "Deep Learn complete: " ++ natStr 0 ++ str " entities created/updated" ++ [],
      [], true, false, none, true⟩,
      (σ.set ctxFp (str "# Context Anchors\n\n" ++ contextAnchorsEntry ts [])).set
        sessFp (sessionResetContent (dateOf ts) none), ?_, ?_⟩
    · unfold deepLearn
      rw [show writeEntitiesLoop root [] σ = (.ok (), σ) from rfl]
      simp only []
      unfold deepLearnStep2
      rw [hreadCtx]
      simp only []
      rw [writeMemory_ok _ σ hvc]
      simp only []
      rw [deepLearnStep3_absent root (dateOf ts) _ sessFp hvs
        (by rw [Store.get_set_ne _ _ _ _ hne]; exact hgs)]
      simp only []
      rw [writeMemory_ok _ _ hvs]
      simp
    · rw [Store.get_set_ne _ _ _ _ (fun hh : sessFp = ctxFp => hne hh.symm)]
      exact Store.get_set_same _ _ _
  · unfold synthesisReflection
    simp only []
    rw [hreadCtx, hcj]
    simp only []
    unfold journalAppend
    rw [hreadJ]
    simp only []
    rw [writeMemory_ok _ σ hvj]

/-- Witness for C8 on the empty store with root `/m`: the target read
fails, `learn` creates `me.md`, and `deepLearn` creates the ledger with
its standard header. -/
theorem c8_absent_vs_error_witness :
    readEntity (str "/m") ⟨str "missing", none, none, none, none⟩ [] =
      .error "ENOENT: no such file or directory" ∧
    (learn (str "/m") (str "2025-06-01T00:00:00Z") (str "S") (str "body") (str "why") []).1 =
      .ok ⟨true, str "Base instructions created: S", str "S", str "created"⟩ ∧
    (∃ res σ', deepLearn (str "/m") (str "2025-06-01T00:00:00Z") [] [] = (.ok res, σ') ∧
      Store.get σ' (str "/m/context_anchors.md") =
        some (str "# Context Anchors\n\n" ++
          contextAnchorsEntry (str "2025-06-01T00:00:00Z") [])) := by
  have hmain := c8_absent_vs_error (str "/m") (str "2025-06-01T00:00:00Z") []
    (str "missing") (str "/m/missing.md") (str "/m/current_session.md") (str "/m/me.md")
    (str "/m/context_anchors.md") (str "/m/dream_journal.md") (str "/m")
    (by decide) (by decide) (by decide) (by decide) (by decide) (by decide)
    (by decide) (by decide) (by decide) (by decide) (by decide) (by decide)
    (str "context") (str "body") (str "medium") (str "S") (str "why") (str "daily")
    [str "i"] none none
  refine ⟨hmain.1, ?_, hmain.2.2.2.1⟩
  rw [hmain.2.2.1]
  decide

/-! ## C6 -/

/-- A batch whose every path validates writes through completely, and
paths outside the batch keep their contents. -/
theorem writeEntitiesLoop_ok (root : Str) (entities : List DLEntity) :
    ∀ σ : Store, (∀ e ∈ entities, ∃ fp, validatePath root e.path = .ok fp) →
      ∃ σ₁, writeEntitiesLoop root entities σ = (.ok (), σ₁) ∧
        ∀ q, (∀ e ∈ entities, ∀ fp, validatePath root e.path = .ok fp → fp ≠ q) →
          Store.get σ₁ q = Store.get σ q := by
  induction entities with
  | nil => exact fun σ _ => ⟨σ, rfl, fun q _ => rfl⟩
  | cons e rest ih =>
    intro σ hok
    obtain ⟨fp, hfp⟩ := hok e (List.mem_cons_self e rest)
    obtain ⟨σ₁, hloop, hframe⟩ :=
      ih (σ.set fp e.content) (fun e' he' => hok e' (List.mem_cons_of_mem e he'))
    refine ⟨σ₁, ?_, ?_⟩
    · unfold writeEntitiesLoop
      rw [writeMemory_ok _ σ hfp]
      exact hloop
    · intro q hq
      rw [hframe q (fun e' he' fp' hfp' => hq e' (List.mem_cons_of_mem e he') fp' hfp')]
      exact Store.get_set_ne σ fp e.content q (hq e (List.mem_cons_self e rest) fp hfp)

/-- The context anchors header split reassembles the document. -/
theorem ctxHeaderFind_parts {L hd rest : Str} (h : ctxHeaderFind L = some (hd, rest)) :
    hd ++ rest = L := by
  unfold ctxHeaderFind at h
  split at h
  · rcases hfind : findSubstr (L.drop 17) (str "\n\n") with _ | q <;> rw [hfind] at h
    · cases h
    · simp only [Option.some.injEq, Prod.mk.injEq] at h
      rw [← h.1, ← h.2]
      exact List.take_append_drop _ L
  · cases h

/-- Step 2 of `deepLearn` on a well-formed existing ledger inserts the
entry immediately after the header. -/
theorem deepLearnStep2_insert (root entry : Str) (σ : Store) (ctxFp L hd rest : Str)
    (hvc : validatePath root (str "context_anchors") = .ok ctxFp)
    (hg : Store.get σ ctxFp = some L)
    (hfind : ctxHeaderFind L = some (hd, rest)) :
    deepLearnStep2 root entry σ = .ok (σ.set ctxFp (hd ++ entry ++ rest)) := by
  unfold deepLearnStep2
  rw [readMemory_ok σ L hvc hg]
  simp only []
  rw [hfind]
  simp only []
  rw [writeMemory_ok _ σ hvc]

/-- C6: a successful consolidation of a non-empty batch reports every
written entity path in input order, inserts exactly one new dated batch
entry into the Ledger Document immediately after its header with all
older entries preserved below, archives the non-trivial session, and
fully replaces the Session Document with the reset template (which
contains none of the pre-existing session text). -/
theorem c6_consolidation (root ts : Str) (σ : Store) (entities : List DLEntity)
    (ctxFp sessFp archFp L hd rest scs : Str)
    (hvc : validatePath root (str "context_anchors") = .ok ctxFp)
    (hvs : validatePath root (str "current_session") = .ok sessFp)
    (hva : validatePath root (str "session_archives/" ++ dateOf ts) = .ok archFp)
    (hnil : entities ≠ [])
    (hwr : ∀ e ∈ entities, ∃ fp, validatePath root e.path = .ok fp ∧
      fp ≠ ctxFp ∧ fp ≠ sessFp ∧ fp ≠ archFp)
    (hd1 : ctxFp ≠ sessFp) (hd2 : archFp ≠ sessFp) (hd3 : archFp ≠ ctxFp)
    (hgc : Store.get σ ctxFp = some L)
    (hfind : ctxHeaderFind L = some (hd, rest))
    (hgs : Store.get σ sessFp = some scs) (hbig : 200 < scs.length) :
    ∃ res σ₄, deepLearn root ts entities σ = (.ok res, σ₄) ∧
      res.success = true ∧
      res.entities_created = entities.map (fun e => e.path) ∧
      res.session_reset = true ∧
      hd ++ rest = L ∧
      Store.get σ₄ ctxFp = some (hd ++ contextAnchorsEntry ts entities ++ rest) ∧
      Store.get σ₄ archFp = some scs ∧
      Store.get σ₄ sessFp =
        some (sessionResetContent (dateOf ts)
          (some (str "session_archives/" ++ dateOf ts))) := by
  obtain ⟨σ₁, hloop, hframe⟩ := writeEntitiesLoop_ok root entities σ
    (fun e he => (hwr e he).imp (fun fp hfp => hfp.1))
  have havoid : ∀ q : Str, (∀ e ∈ entities, ∃ fp, validatePath root e.path = .ok fp ∧ fp ≠ q) →
      ∀ e ∈ entities, ∀ fp, validatePath root e.path = .ok fp → fp ≠ q := by
    intro q hq e he fp hfp
    obtain ⟨fp₀, hfp₀, hne₀⟩ := hq e he
    rw [hfp₀] at hfp
    cases hfp
    exact hne₀
  have hg1c : Store.get σ₁ ctxFp = some L := by
    rw [hframe ctxFp (havoid ctxFp (fun e he => (hwr e he).imp (fun fp h => ⟨h.1, h.2.1⟩)))]
    exact hgc
  have hg1s : Store.get σ₁ sessFp = some scs := by
    rw [hframe sessFp (havoid sessFp (fun e he => (hwr e he).imp (fun fp h => ⟨h.1, h.2.2.1⟩)))]
    exact hgs
  have hstep2 := deepLearnStep2_insert root (contextAnchorsEntry ts entities) σ₁
    ctxFp L hd rest hvc hg1c hfind
  have hdl : deepLearn root ts entities σ =
      (.ok ⟨true,
        str "Deep Learn complete: " ++ natStr entities.length ++
          str " entities created/updated" ++
          (str ", session archived to " ++ (str "session_archives/" ++ dateOf ts)),
        entities.map (fun e => e.path), true, true,
        some (str "session_archives/" ++ dateOf ts), true⟩,
        ((σ₁.set ctxFp (hd ++ contextAnchorsEntry ts entities ++ rest)).set archFp scs).set
          sessFp (sessionResetContent (dateOf ts)
            (some (str "session_archives/" ++ dateOf ts)))) := by
    unfold deepLearn
    rw [hloop]
    simp only []
    rw [hstep2]
    simp only []
    rw [deepLearnStep3_archives root (dateOf ts) _ sessFp archFp scs hvs hva
      (by rw [Store.get_set_ne _ _ _ _ hd1]; exact hg1s) hbig]
    simp only []
    rw [writeMemory_ok _ _ hvs]
    simp
  refine ⟨_, _, hdl, rfl, rfl, rfl, ctxHeaderFind_parts hfind, ?_, ?_, ?_⟩
  · rw [Store.get_set_ne _ _ _ _ (fun hh : sessFp = ctxFp => hd1 hh.symm),
      Store.get_set_ne _ _ _ _ hd3]
    exact Store.get_set_same _ _ _
  · rw [Store.get_set_ne _ _ _ _ (fun hh : sessFp = archFp => hd2 hh.symm)]
    exact Store.get_set_same _ _ _
  · exact Store.get_set_same _ _ _

/-- Witness for C6: two entities consolidated over an existing ledger
and a 210-character session. -/
theorem c6_consolidation_witness :
    200 < (List.replicate 210 'a' : Str).length ∧
    (∃ res σ₄,
      deepLearn (str "/m") (str "2025-06-01T00:00:00Z")
        [⟨str "concepts/a", str "A", str "sa"⟩, ⟨str "projects/b", str "B", str "sb"⟩]
        [(str "/m/context_anchors.md", str "# Context Anchors\n\nold entries\n"),
         (str "/m/current_session.md", List.replicate 210 'a')] = (.ok res, σ₄) ∧
      res.success = true ∧
      res.entities_created = List.map (fun e => e.path)
        ([⟨str "concepts/a", str "A", str "sa"⟩,
          ⟨str "projects/b", str "B", str "sb"⟩] : List DLEntity) ∧
      res.session_reset = true ∧
      str "# Context Anchors\n\n" ++ str "old entries\n" =
        str "# Context Anchors\n\nold entries\n" ∧
      Store.get σ₄ (str "/m/context_anchors.md") =
        some (str "# Context Anchors\n\n" ++
          contextAnchorsEntry (str "2025-06-01T00:00:00Z")
            [⟨str "concepts/a", str "A", str "sa"⟩, ⟨str "projects/b", str "B", str "sb"⟩] ++
          str "old entries\n") ∧
      Store.get σ₄ (str "/m/session_archives/2025-06-01.md") =
        some (List.replicate 210 'a') ∧
      Store.get σ₄ (str "/m/current_session.md") =
        some (sessionResetContent (dateOf (str "2025-06-01T00:00:00Z"))
          (some (str "session_archives/" ++ dateOf (str "2025-06-01T00:00:00Z"))))) := by
  constructor
  · rw [List.length_replicate]
    decide
  · refine c6_consolidation (str "/m") (str "2025-06-01T00:00:00Z")
      [(str "/m/context_anchors.md", str "# Context Anchors\n\nold entries\n"),
       (str "/m/current_session.md", List.replicate 210 'a')]
      [⟨str "concepts/a", str "A", str "sa"⟩, ⟨str "projects/b", str "B", str "sb"⟩]
      (str "/m/context_anchors.md") (str "/m/current_session.md")
      (str "/m/session_archives/2025-06-01.md")
      (str "# Context Anchors\n\nold entries\n") (str "# Context Anchors\n\n")
      (str "old entries\n") (List.replicate 210 'a')
      (by decide) (by decide) (by decide) (by decide) ?_
      (by decide) (by decide) (by decide) (by decide) (by decide) ?_
      (by rw [List.length_replicate]; decide)
    · intro e he
      rcases List.mem_cons.mp he with rfl | he
      · exact ⟨str "/m/concepts/a.md", by decide⟩
      rcases List.mem_cons.mp he with rfl | he
      · exact ⟨str "/m/projects/b.md", by decide⟩
      · cases he
    · show Store.get _ _ = _
      rfl

/-! ## C7 -/

/-- C7 counterexample: a batch that first writes to the path
`context_anchors` and then fails on an escaping path leaves the whole
call failed at step 1 — yet the Ledger Document has been changed by the
completed batch write, against the claim that it is left unchanged. -/
theorem c7_counterexample :
    (deepLearn (str "/m") (str "2025-06-01T00:00:00Z")
      [⟨str "context_anchors", str "junk", str "s"⟩, ⟨str "../esc", str "c", str "t"⟩]
      [(str "/m/context_anchors.md", str "# Context Anchors\n\nolder\n")]).1 =
      .error "Access denied: path escapes memory directory" ∧
    Store.get (deepLearn (str "/m") (str "2025-06-01T00:00:00Z")
      [⟨str "context_anchors", str "junk", str "s"⟩, ⟨str "../esc", str "c", str "t"⟩]
      [(str "/m/context_anchors.md", str "# Context Anchors\n\nolder\n")]).2
      (str "/m/context_anchors.md") = some (str "junk") ∧
    some (str "junk") ≠ some (str "# Context Anchors\n\nolder\n") := by decide

/-- Path validation determines the physical path, so an avoided target
is avoided by every validation outcome. -/
theorem validatePath_det_avoid (root : Str) (es : List DLEntity) (q : Str)
    (hq : ∀ en ∈ es, ∃ fp, validatePath root en.path = .ok fp ∧ fp ≠ q) :
    ∀ en ∈ es, ∀ fp, validatePath root en.path = .ok fp → fp ≠ q := by
  intro en he fp hfp
  obtain ⟨fp₀, hfp₀, hne₀⟩ := hq en he
  rw [hfp₀] at hfp
  cases hfp
  exact hne₀

/-- The write loop stops at the first failing entity, keeping exactly
the writes completed before it. -/
theorem writeEntitiesLoop_append_err (root : Str) (good : List DLEntity) (bad : DLEntity)
    (more : List DLEntity) :
    ∀ (σ σ' : Store) (e : String),
      writeEntitiesLoop root good σ = (.ok (), σ') →
      validatePath root bad.path = .error e →
      writeEntitiesLoop root (good ++ bad :: more) σ = (.error e, σ') := by
  induction good with
  | nil =>
    intro σ σ' e hgood hbad
    have hσ : σ' = σ := by
      unfold writeEntitiesLoop at hgood
      cases hgood
      rfl
    subst hσ
    unfold writeEntitiesLoop
    simp [writeMemory, hbad]
  | cons g gs ih =>
    intro σ σ' e hgood hbad
    simp only [writeEntitiesLoop, List.cons_append] at hgood ⊢
    cases hw : writeMemory root g.path g.content σ with
    | error err =>
      rw [hw] at hgood
      simp at hgood
    | ok σ₂ =>
      rw [hw] at hgood
      exact ih σ₂ σ' e hgood hbad

/-- C7 (amended): when writing an entity of the batch fails, the
operation aborts before any later step executes — the final state holds
exactly the batch writes completed before the failure, so the Ledger
Document, the Session Document and the day's archive are unchanged
whenever those completed writes do not target them. -/
theorem c7_step1_abort_amended (root ts : Str) (σ : Store)
    (good : List DLEntity) (bad : DLEntity) (more : List DLEntity)
    (ctxFp sessFp archFp : Str) (e : String)
    (hgood : ∀ en ∈ good, ∃ fp, validatePath root en.path = .ok fp ∧
      fp ≠ ctxFp ∧ fp ≠ sessFp ∧ fp ≠ archFp)
    (hbad : validatePath root bad.path = .error e) :
    ∃ σ', deepLearn root ts (good ++ bad :: more) σ = (.error e, σ') ∧
      writeEntitiesLoop root good σ = (.ok (), σ') ∧
      Store.get σ' ctxFp = Store.get σ ctxFp ∧
      Store.get σ' sessFp = Store.get σ sessFp ∧
      Store.get σ' archFp = Store.get σ archFp := by
  obtain ⟨σ', hloop, hframe⟩ := writeEntitiesLoop_ok root good σ
    (fun en he => (hgood en he).imp (fun fp h => h.1))
  have hfull := writeEntitiesLoop_append_err root good bad more σ σ' e hloop hbad
  refine ⟨σ', ?_, hloop, ?_, ?_, ?_⟩
  · unfold deepLearn
    rw [hfull]
  · exact hframe ctxFp (validatePath_det_avoid root good ctxFp
      (fun en he => (hgood en he).imp (fun fp h => ⟨h.1, h.2.1⟩)))
  · exact hframe sessFp (validatePath_det_avoid root good sessFp
      (fun en he => (hgood en he).imp (fun fp h => ⟨h.1, h.2.2.1⟩)))
  · exact hframe archFp (validatePath_det_avoid root good archFp
      (fun en he => (hgood en he).imp (fun fp h => ⟨h.1, h.2.2.2⟩)))

/-- Witness for the amended C7: one good entity, then an escaping one;
the ledger, session and archive paths keep their contents. -/
theorem c7_step1_abort_amended_witness :
    ∃ σ', deepLearn (str "/m") (str "2025-06-01T00:00:00Z")
        ([⟨str "concepts/a", str "A", str "s"⟩] ++ ⟨str "../esc", str "c", str "t"⟩ :: [])
        [(str "/m/context_anchors.md", str "L"), (str "/m/current_session.md", str "S")] =
        (.error "Access denied: path escapes memory directory", σ') ∧
      writeEntitiesLoop (str "/m") [⟨str "concepts/a", str "A", str "s"⟩]
        [(str "/m/context_anchors.md", str "L"), (str "/m/current_session.md", str "S")] =
        (.ok (), σ') ∧
      Store.get σ' (str "/m/context_anchors.md") =
        Store.get [(str "/m/context_anchors.md", str "L"),
          (str "/m/current_session.md", str "S")] (str "/m/context_anchors.md") ∧
      Store.get σ' (str "/m/current_session.md") =
        Store.get [(str "/m/context_anchors.md", str "L"),
          (str "/m/current_session.md", str "S")] (str "/m/current_session.md") ∧
      Store.get σ' (str "/m/session_archives/2025-06-01.md") =
        Store.get [(str "/m/context_anchors.md", str "L"),
          (str "/m/current_session.md", str "S")] (str "/m/session_archives/2025-06-01.md") := by
  refine c7_step1_abort_amended (str "/m") (str "2025-06-01T00:00:00Z")
    [(str "/m/context_anchors.md", str "L"), (str "/m/current_session.md", str "S")]
    [⟨str "concepts/a", str "A", str "s"⟩] ⟨str "../esc", str "c", str "t"⟩ []
    (str "/m/context_anchors.md") (str "/m/current_session.md")
    (str "/m/session_archives/2025-06-01.md") "Access denied: path escapes memory directory"
    ?_ (by decide)
  intro en he
  rcases List.mem_cons.mp he with rfl | he
  · exact ⟨str "/m/concepts/a.md", by decide⟩
  · cases he

/-! ## C9: frame lemmas -/

/-- Renaming between two other paths leaves `q` unchanged. -/
theorem Store.get_rename_ne (σ : Store) (src dst q : Str) (h1 : src ≠ q) (h2 : dst ≠ q) :
    (σ.rename src dst).get q = σ.get q := by
  unfold Store.rename
  split
  · next c hsrc =>
    rw [Store.get_set_ne _ _ _ _ h2]
    exact Store.get_remove_ne σ src q h1
  · rfl

/-- A completed `writeMemory` changes only its own resolved path. -/
theorem writeMemory_frame {root p c : Str} (q : Str) {σ σ' : Store}
    (h : writeMemory root p c σ = .ok σ')
    (hq : ∀ fp, validatePath root p = .ok fp → fp ≠ q) :
    Store.get σ' q = Store.get σ q := by
  unfold writeMemory at h
  cases hv : validatePath root p with
  | error e => rw [hv] at h; cases h
  | ok fp =>
    rw [hv] at h
    simp only [Except.ok.injEq] at h
    rw [← h]
    exact Store.get_set_ne σ fp c q (hq fp hv)

/-- `addSessionNote` touches only the session document. -/
theorem addSessionNote_frame (root ts nt c imp q : Str) (σ : Store)
    (hq : ∀ fp, validatePath root (str "current_session") = .ok fp → fp ≠ q) :
    Store.get (addSessionNote root ts nt c imp σ).2 q = Store.get σ q := by
  unfold addSessionNote
  split
  · simp only []
    split
    · next σ' hw => exact writeMemory_frame q hw hq
    · rfl
  · simp only []
    split
    · next σ' hw => exact writeMemory_frame q hw hq
    · rfl

/-- `writeEntity` touches only its own resolved path. -/
theorem writeEntity_frame (root p c q : Str) (σ : Store)
    (hq : ∀ fp, validatePath root p = .ok fp → fp ≠ q) :
    Store.get (writeEntity root p c σ).2 q = Store.get σ q := by
  unfold writeEntity
  split
  · next σ' hw => exact writeMemory_frame q hw hq
  · rfl

/-- The create branch of `learn` touches only `me.md`. -/
theorem learnCreate_frame (root s entry q : Str) (σ : Store)
    (hq : ∀ fp, validatePath root (str "me") = .ok fp → fp ≠ q) :
    Store.get (learnCreate root s entry σ).2 q = Store.get σ q := by
  unfold learnCreate
  split
  · next σ' hw => exact writeMemory_frame q hw hq
  · rfl

/-- `learn` touches only `me.md`. -/
theorem learn_frame (root ts s c r q : Str) (σ : Store)
    (hq : ∀ fp, validatePath root (str "me") = .ok fp → fp ≠ q) :
    Store.get (learn root ts s c r σ).2 q = Store.get σ q := by
  unfold learn
  split
  · exact learnCreate_frame root s _ q σ hq
  · next me hread =>
    split
    · simp only []
      split
      · next σ' hw => exact writeMemory_frame q hw hq
      · exact learnCreate_frame root s _ q σ hq
    · simp only []
      split
      · next σ' hw => exact writeMemory_frame q hw hq
      · exact learnCreate_frame root s _ q σ hq

/-- The append branch of `synthesisReflection` touches only the
journal document at the memory root. -/
theorem journalAppend_frame (root rt content q : Str) (σ : Store)
    (hq : ∀ fp, validatePath root (str "dream_journal") = .ok fp → fp ≠ q) :
    Store.get (journalAppend root rt content σ).2 q = Store.get σ q := by
  unfold journalAppend
  split
  · simp only []
    split
    · next σ' hw => exact writeMemory_frame q hw hq
    · rfl
  · simp only []
    split
    · next σ' hw => exact writeMemory_frame q hw hq
    · rfl

/-- `synthesisReflection` touches only the configured journal file, its
dated rotation target, and the root journal document. -/
theorem synthesisReflection_frame (root codieDir ts rt q : Str)
    (ki : List Str) (cg ff : Option Str) (σ : Store)
    (hqj : ∀ fp, validatePath root (str "dream_journal") = .ok fp → fp ≠ q)
    (hqp : resolveJoin codieDir (str "dream_journal.md") ≠ q)
    (hqr : resolveJoin codieDir (str "dream_journal_" ++ dateOf ts ++ str ".md") ≠ q) :
    Store.get (synthesisReflection root (some codieDir) ts rt ki cg ff σ).2 q =
      Store.get σ q := by
  unfold synthesisReflection
  simp only []
  split
  · next jc hstat =>
    split
    · split
      · next σ₂ hw =>
        rw [writeMemory_frame q hw hqj]
        exact Store.get_rename_ne σ _ _ q hqp hqr
      · next e hw =>
        rw [journalAppend_frame root rt _ q _ hqj]
        exact Store.get_rename_ne σ _ _ q hqp hqr
    · exact journalAppend_frame root rt _ q σ hqj
  · exact journalAppend_frame root rt _ q σ hqj

/-- The batch write loop changes nothing outside the batch paths, on
success and on failure alike. -/
theorem writeEntitiesLoop_frame (root : Str) (entities : List DLEntity) (q : Str) :
    ∀ σ : Store, (∀ en ∈ entities, ∀ fp, validatePath root en.path = .ok fp → fp ≠ q) →
      Store.get (writeEntitiesLoop root entities σ).2 q = Store.get σ q := by
  induction entities with
  | nil => intro σ _; rfl
  | cons g gs ih =>
    intro σ h
    simp only [writeEntitiesLoop]
    split
    · rfl
    · next σ₂ hw =>
      rw [ih σ₂ (fun en he fp hfp => h en (List.mem_cons_of_mem g he) fp hfp)]
      exact writeMemory_frame q hw (fun fp hfp => h g (List.mem_cons_self g gs) fp hfp)

/-- Step 2 of `deepLearn` touches only the context anchors document. -/
theorem deepLearnStep2_frame (root entry q : Str) (σ σ' : Store)
    (h : deepLearnStep2 root entry σ = .ok σ')
    (hq : ∀ fp, validatePath root (str "context_anchors") = .ok fp → fp ≠ q) :
    Store.get σ' q = Store.get σ q := by
  unfold deepLearnStep2 at h
  split at h
  · split at h
    · simp only [] at h
      split at h
      · next σ'' hw =>
        simp only [Except.ok.injEq] at h
        rw [← h]
        exact writeMemory_frame q hw hq
      · exact writeMemory_frame q h hq
    · simp only [] at h
      split at h
      · next σ'' hw =>
        simp only [Except.ok.injEq] at h
        rw [← h]
        exact writeMemory_frame q hw hq
      · exact writeMemory_frame q h hq
  · simp only [] at h
    exact writeMemory_frame q h hq


/-- `deepLearn` touches only the batch paths, the context anchors, the
day's session archive, and the session document. -/
theorem deepLearn_frame (root ts q : Str) (entities : List DLEntity) (σ : Store)
    (hqe : ∀ en ∈ entities, ∀ fp, validatePath root en.path = .ok fp → fp ≠ q)
    (hqc : ∀ fp, validatePath root (str "context_anchors") = .ok fp → fp ≠ q)
    (hqs : ∀ fp, validatePath root (str "current_session") = .ok fp → fp ≠ q)
    (hqa : ∀ fp, validatePath root (str "session_archives/" ++ dateOf ts) = .ok fp → fp ≠ q) :
    Store.get (deepLearn root ts entities σ).2 q = Store.get σ q := by
  have hstep3 : ∀ τ : Store,
      Store.get (deepLearnStep3 root (dateOf ts) τ).2.2 q = Store.get τ q := by
    intro τ
    unfold deepLearnStep3
    split
    · next cs hread =>
      split
      · simp only []
        split
        · next σ' hw => exact writeMemory_frame q hw hqa
        · rfl
      · rfl
    · rfl
  unfold deepLearn
  split
  · next e σ₁ hloop =>
    have hfr := writeEntitiesLoop_frame root entities q σ hqe
    rw [hloop] at hfr
    exact hfr
  · next u σ₁ hloop =>
    have hσ₁ : Store.get σ₁ q = Store.get σ q := by
      have hfr := writeEntitiesLoop_frame root entities q σ hqe
      rw [hloop] at hfr
      exact hfr
    simp only []
    have hσ₂ : Store.get (match deepLearnStep2 root (contextAnchorsEntry ts entities) σ₁ with
        | .ok σ' => σ'
        | .error _ => σ₁) q = Store.get σ₁ q := by
      split
      · next σ' hst => exact deepLearnStep2_frame root _ q σ₁ σ' hst hqc
      · rfl
    have hσ₃ : Store.get (deepLearnStep3 root (dateOf ts)
        (match deepLearnStep2 root (contextAnchorsEntry ts entities) σ₁ with
          | .ok σ' => σ'
          | .error _ => σ₁)).2.2 q = Store.get σ q := by
      rw [hstep3, hσ₂, hσ₁]
    split
    · exact hσ₃
    · next σ₄ hw =>
      rw [writeMemory_frame q hw hqs]
      exact hσ₃

/-- C9 counterexample: the dated session archive is NOT write-once. A
`deepLearn` on 2025-06-01 archives the 210-character session to
`session_archives/2025-06-01.md`; after a session note grows the fresh
session past the threshold, a second `deepLearn` on the same day
overwrites that existing archive with different content. -/
theorem c9_counterexample :
    Store.get (deepLearn (str "/m") (str "2025-06-01T10:00:00Z") []
        [(str "/m/current_session.md", List.replicate 210 'a')]).2
      (str "/m/session_archives/2025-06-01.md") = some (List.replicate 210 'a')
    ∧ Store.get (deepLearn (str "/m") (str "2025-06-01T10:00:00Z") []
        (addSessionNote (str "/m") (str "2025-06-01T10:00:00Z") (str "note")
          (List.replicate 210 'b') (str "high")
          (deepLearn (str "/m") (str "2025-06-01T10:00:00Z") []
            [(str "/m/current_session.md", List.replicate 210 'a')]).2).2).2
      (str "/m/session_archives/2025-06-01.md") ≠ some (List.replicate 210 'a') := by
  set_option maxRecDepth 4000 in decide

/-- C9 amended: archives at other paths are preserved. Any stored
document `q` distinct from the operation's own targets — the session,
`me`, the context anchors, the dream journal and its per-day rotation
paths, the batch entity paths, and (crucially) the operation's OWN day's
session archive — is byte-for-byte unchanged by every mutating tool:
`addSessionNote`, `writeEntity`, `learn`, `synthesisReflection` and
`deepLearn`. In particular an archive dated to a different day is never
mutated; only a same-day rotation or session archival can rewrite an
existing archive (as `c9_counterexample` shows it does). -/
theorem c9_archive_frame_amended (root ts q nt c imp p pc s cr r rt codieDir : Str)
    (ki : List Str) (cg ff : Option Str)
    (entities : List DLEntity) (σ : Store)
    (sessFp meFp ctxFp jFp archFp : Str)
    (hvs : validatePath root (str "current_session") = .ok sessFp) (hs : sessFp ≠ q)
    (hvm : validatePath root (str "me") = .ok meFp) (hm : meFp ≠ q)
    (hvc : validatePath root (str "context_anchors") = .ok ctxFp) (hc : ctxFp ≠ q)
    (hvj : validatePath root (str "dream_journal") = .ok jFp) (hj : jFp ≠ q)
    (hva : validatePath root (str "session_archives/" ++ dateOf ts) = .ok archFp)
    (ha : archFp ≠ q)
    (hvp : ∃ fp, validatePath root p = .ok fp ∧ fp ≠ q)
    (hve : ∀ en ∈ entities, ∃ fp, validatePath root en.path = .ok fp ∧ fp ≠ q)
    (hjp : resolveJoin codieDir (str "dream_journal.md") ≠ q)
    (hjr : resolveJoin codieDir (str "dream_journal_" ++ dateOf ts ++ str ".md") ≠ q) :
    Store.get (addSessionNote root ts nt c imp σ).2 q = Store.get σ q
    ∧ Store.get (writeEntity root p pc σ).2 q = Store.get σ q
    ∧ Store.get (learn root ts s cr r σ).2 q = Store.get σ q
    ∧ Store.get (synthesisReflection root (some codieDir) ts rt ki cg ff σ).2 q =
        Store.get σ q
    ∧ Store.get (deepLearn root ts entities σ).2 q = Store.get σ q := by
  have Hs : ∀ fp, validatePath root (str "current_session") = .ok fp → fp ≠ q := by
    intro fp hfp; rw [hvs] at hfp; cases hfp; exact hs
  have Hm : ∀ fp, validatePath root (str "me") = .ok fp → fp ≠ q := by
    intro fp hfp; rw [hvm] at hfp; cases hfp; exact hm
  have Hc : ∀ fp, validatePath root (str "context_anchors") = .ok fp → fp ≠ q := by
    intro fp hfp; rw [hvc] at hfp; cases hfp; exact hc
  have Hj : ∀ fp, validatePath root (str "dream_journal") = .ok fp → fp ≠ q := by
    intro fp hfp; rw [hvj] at hfp; cases hfp; exact hj
  have Ha : ∀ fp, validatePath root (str "session_archives/" ++ dateOf ts) = .ok fp →
      fp ≠ q := by
    intro fp hfp; rw [hva] at hfp; cases hfp; exact ha
  have Hp : ∀ fp, validatePath root p = .ok fp → fp ≠ q := by
    obtain ⟨fp₀, h₀, hne₀⟩ := hvp
    intro fp hfp; rw [h₀] at hfp; cases hfp; exact hne₀
  have He := validatePath_det_avoid root entities q hve
  exact ⟨addSessionNote_frame root ts nt c imp q σ Hs,
    writeEntity_frame root p pc q σ Hp,
    learn_frame root ts s cr r q σ Hm,
    synthesisReflection_frame root codieDir ts rt q ki cg ff σ Hj hjp hjr,
    deepLearn_frame root ts q entities σ He Hc Hs Ha⟩

/-- Witness for `c9_archive_frame_amended`: a `deepLearn` dated
2025-06-01 leaves the previous day's archive untouched. -/
theorem c9_archive_frame_amended_witness :
    Store.get (deepLearn (str "/m") (str "2025-06-01T10:00:00Z") []
        [(str "/m/session_archives/2025-05-31.md", str "old archive")]).2
      (str "/m/session_archives/2025-05-31.md") =
    Store.get [(str "/m/session_archives/2025-05-31.md", str "old archive")]
      (str "/m/session_archives/2025-05-31.md") :=
  (c9_archive_frame_amended (str "/m") (str "2025-06-01T10:00:00Z")
    (str "/m/session_archives/2025-05-31.md")
    (str "note") (str "content") (str "high") (str "notes/x") (str "pc")
    (str "Sec") (str "body") (str "why") (str "reflection") (str "/c")
    [] none none []
    [(str "/m/session_archives/2025-05-31.md", str "old archive")]
    (str "/m/current_session.md") (str "/m/me.md") (str "/m/context_anchors.md")
    (str "/m/dream_journal.md") (str "/m/session_archives/2025-06-01.md")
    (by decide) (by decide) (by decide) (by decide) (by decide) (by decide)
    (by decide) (by decide) (by decide) (by decide)
    ⟨str "/m/notes/x.md", by decide, by decide⟩
    (fun en he => absurd he (List.not_mem_nil en))
    (by decide) (by decide)).2.2.2.2

/-- C5 counterexample: the `learn` regex search for the section header is
not line-anchored, so a mention of "### B" inside section A's body is
matched first. Both calls report "replaced", yet the final document holds
TWO "### B - Updated" blocks (the untouched real one plus the entry
spliced into section A), and section A is not preserved byte-for-byte. -/
theorem c5_counterexample :
    learnAction (learn (str "/m") (str "2025-06-01T00:00:00Z") (str "B") (str "new") (str "why")
      [(str "/m/me.md", str "### A\nsee ### B here\nmore A text\n\n---\n\n### B - Updated 2025-01-01\n\n**Rationale**: old\n\nold content\n\n---\n\n")]) = str "replaced"
    ∧ learnAction (learn (str "/m") (str "2025-06-01T00:00:00Z") (str "B") (str "new") (str "why")
      (learn (str "/m") (str "2025-06-01T00:00:00Z") (str "B") (str "new") (str "why")
      [(str "/m/me.md", str "### A\nsee ### B here\nmore A text\n\n---\n\n### B - Updated 2025-01-01\n\n**Rationale**: old\n\nold content\n\n---\n\n")]).2) = str "replaced"
    ∧ (List.range (contentAt (learn (str "/m") (str "2025-06-01T00:00:00Z") (str "B") (str "new") (str "why")
      (learn (str "/m") (str "2025-06-01T00:00:00Z") (str "B") (str "new") (str "why")
      [(str "/m/me.md", str "### A\nsee ### B here\nmore A text\n\n---\n\n### B - Updated 2025-01-01\n\n**Rationale**: old\n\nold content\n\n---\n\n")]).2).2 (str "/m/me.md")).length).countP
        (fun p => occAt (contentAt (learn (str "/m") (str "2025-06-01T00:00:00Z") (str "B") (str "new") (str "why")
      (learn (str "/m") (str "2025-06-01T00:00:00Z") (str "B") (str "new") (str "why")
      [(str "/m/me.md", str "### A\nsee ### B here\nmore A text\n\n---\n\n### B - Updated 2025-01-01\n\n**Rationale**: old\n\nold content\n\n---\n\n")]).2).2 (str "/m/me.md")) (str "### B - Updated") p) = 2
    ∧ ¬ isPref (str "### A\nsee ### B here") (contentAt (learn (str "/m") (str "2025-06-01T00:00:00Z") (str "B") (str "new") (str "why")
      (learn (str "/m") (str "2025-06-01T00:00:00Z") (str "B") (str "new") (str "why")
      [(str "/m/me.md", str "### A\nsee ### B here\nmore A text\n\n---\n\n### B - Updated 2025-01-01\n\n**Rationale**: old\n\nold content\n\n---\n\n")]).2).2 (str "/m/me.md")) := by
  set_option maxRecDepth 4000 in decide

/-! ## Occurrence infrastructure for the `learn` two-call analysis -/

/-- A per-position uniqueness check bounded by the document length
extends to all positions (occurrences past the end are impossible). -/
theorem occ_unique_of_bounded {docX pat : Str} {i : Nat} (hne : pat ≠ [])
    (hb : ∀ j, j < docX.length → occAt docX pat j = true → j = i) :
    ∀ j, occAt docX pat j = true → j = i := by
  intro j hj
  by_cases h : j < docX.length
  · exact hb j h hj
  · rw [occAt_false_of_le docX j hne (by omega)] at hj
    cases hj

/-- Inside the first `5 + |s| + |mid|` positions of
`'\n' :: "### " :: s ++ mid ++ y` with `s` and `mid` free of `#`, the
header text `"### " ++ s` occurs exactly at position `1` (the tail `y`
is arbitrary). -/
theorem occAt_entry_front (s mid y : Str) (q : Nat)
    (hs : ∀ ch ∈ s, ch ≠ '#') (hmid : ∀ ch ∈ mid, ch ≠ '#')
    (hq : q < 5 + s.length + mid.length) :
    occAt ('\n' :: '#' :: '#' :: '#' :: ' ' :: (s ++ mid ++ y)) (str "### " ++ s) q =
      true ↔ q = 1 := by
  constructor
  · intro h
    rcases q with _ | _ | _ | _ | _ | k
    · exfalso
      unfold occAt at h
      rw [List.drop_zero, str_hdr] at h
      simp [isPref] at h
    · rfl
    · exfalso
      unfold occAt at h
      rw [show ('\n' :: '#' :: '#' :: '#' :: ' ' :: (s ++ mid ++ y)).drop 2 =
        '#' :: '#' :: ' ' :: (s ++ mid ++ y) from rfl, str_hdr] at h
      simp [isPref] at h
    · exfalso
      unfold occAt at h
      rw [show ('\n' :: '#' :: '#' :: '#' :: ' ' :: (s ++ mid ++ y)).drop 3 =
        '#' :: ' ' :: (s ++ mid ++ y) from rfl, str_hdr] at h
      simp [isPref] at h
    · exfalso
      unfold occAt at h
      rw [show ('\n' :: '#' :: '#' :: '#' :: ' ' :: (s ++ mid ++ y)).drop 4 =
        ' ' :: (s ++ mid ++ y) from rfl, str_hdr] at h
      simp [isPref] at h
    · exfalso
      unfold occAt at h
      rw [show ('\n' :: '#' :: '#' :: '#' :: ' ' :: (s ++ mid ++ y)).drop (k + 5) =
        (s ++ mid ++ y).drop k from rfl] at h
      have hhd := isPref_get h 0 (by rw [str_hdr]; simp)
      rw [show (str "### " ++ s).get? 0 = some '#' from by rw [str_hdr]; rfl] at hhd
      rw [List.get?_drop] at hhd
      have hk : k < (s ++ mid).length := by
        rw [List.length_append]; omega
      rw [List.get?_eq_getElem?] at hhd
      rw [List.getElem?_append, if_pos (by rw [List.length_append]; omega)] at hhd
      have hmem : '#' ∈ s ++ mid := by
        rw [Nat.add_zero] at hhd
        exact List.get?_mem (by rw [List.get?_eq_getElem?]; exact hhd)
      rcases List.mem_append.mp hmem with hin | hin
      · exact hs _ hin rfl
      · exact hmid _ hin rfl
  · intro h
    subst h
    unfold occAt
    rw [show ('\n' :: '#' :: '#' :: '#' :: ' ' :: (s ++ mid ++ y)).drop 1 =
      '#' :: '#' :: '#' :: ' ' :: (s ++ mid ++ y) from rfl]
    rw [show ('#' : Char) :: '#' :: '#' :: ' ' :: (s ++ mid ++ y) =
      (str "### " ++ s) ++ (mid ++ y) from by rw [str_hdr]; simp]
    exact isPref_append_self _ _

/-- The interior of a learning entry contains no `$` when the date,
rationale and body avoid it. -/
theorem no_dollar_interior (d r c : Str) (hd : ∀ ch ∈ d, ch ≠ '$')
    (hr : ∀ ch ∈ r, ch ≠ '$') (hc : ∀ ch ∈ c, ch ≠ '$') :
    ∀ ch ∈ entryInterior d r c, ch ≠ '$' := by
  intro ch h
  unfold entryInterior at h
  simp only [List.append_assoc, List.mem_append] at h
  rcases h with h | h | h | h | h | h | h
  · exact (by decide : ∀ x ∈ str " - Updated ", x ≠ '$') ch h
  · exact hd ch h
  · exact (by decide : ∀ x ∈ str "\n\n**Rationale**: ", x ≠ '$') ch h
  · exact hr ch h
  · exact (by decide : ∀ x ∈ str "\n\n", x ≠ '$') ch h
  · exact hc ch h
  · exact (by decide : ∀ x ∈ str "\n\n---\n\n", x ≠ '$') ch h

/-- A whole learning entry contains no `$` when all its variable parts
avoid it. -/
theorem no_dollar_entry (s ts r c : Str) (hs : ∀ ch ∈ s, ch ≠ '$')
    (hd : ∀ ch ∈ dateOf ts, ch ≠ '$') (hr : ∀ ch ∈ r, ch ≠ '$')
    (hc : ∀ ch ∈ c, ch ≠ '$') :
    ∀ ch ∈ learningEntry s ts r c, ch ≠ '$' := by
  intro ch h
  rw [learningEntry_decomp] at h
  simp only [List.mem_cons, List.mem_append] at h
  rcases h with h | h | h | h | h | h | h
  · subst h; decide
  · subst h; decide
  · subst h; decide
  · subst h; decide
  · subst h; decide
  · exact hs ch h
  · exact no_dollar_interior (dateOf ts) r c hd hr hc ch h

/-- Length of the interior of a learning entry. -/
theorem entryInterior_length (d r c : Str) :
    (entryInterior d r c).length = 37 + d.length + r.length + c.length := by
  have h1 : (str " - Updated ").length = 11 := rfl
  have h2 : (str "\n\n**Rationale**: ").length = 17 := rfl
  have h3 : (str "\n\n").length = 2 := rfl
  have h4 : (str "\n\n---\n\n").length = 7 := rfl
  unfold entryInterior
  simp only [List.length_append, h1, h2, h3, h4]
  omega

/-- Length of a learning entry. -/
theorem learningEntry_length (s ts r c : Str) :
    (learningEntry s ts r c).length =
      42 + s.length + (dateOf ts).length + r.length + c.length := by
  rw [learningEntry_decomp]
  simp only [List.length_cons, List.length_append, entryInterior_length]
  omega

/-- Evaluation of a replace-branch `learn` call: with the target present,
the header found at `i` and the terminator scan yielding `(t1, t2)`, the
matched block is replaced by the fresh entry and the action is
`"replaced"`. -/
theorem learn_eval (root ts s c r meFp doc : Str) (σ : Store) (i t1 t2 : Nat)
    (hv : validatePath root (str "me") = .ok meFp)
    (hm : Store.get σ meFp = some doc)
    (hfind : findSubstr doc (str "### " ++ s) = some i)
    (ht : findTermAux (doc.drop (i + (str "### " ++ s).length)) = (t1, t2))
    (hdol : ∀ ch ∈ learningEntry s ts r c, ch ≠ '$') :
    learn root ts s c r σ =
      (.ok ⟨true, str "Base instructions updated: " ++ s, s, str "replaced"⟩,
       σ.set meFp (doc.take i ++ learningEntry s ts r c ++
         doc.drop (i + (str "### " ++ s).length + t1 + t2))) := by
  unfold learn
  rw [readMemory_ok σ doc hv hm]
  simp only []
  rw [hfind]
  simp only []
  rw [ht]
  simp only []
  rw [expandDollar_id _ _ _ _ _ _ hdol]
  rw [writeMemory_ok _ σ hv]

/-- Occurrence positions of the section header in a document of the form
`prefix ++ fresh-entry ++ tail` when the prefix admits no occurrence,
the tail admits none, and the entry's variable parts are `#`-free: the
header occurs exactly at the entry's start (offset 1 for the entry's
leading newline). -/
theorem occ_block_unique (s mid x y : Str)
    (hsH : ∀ ch ∈ s, ch ≠ '#') (hmidH : ∀ ch ∈ mid, ch ≠ '#')
    (hsN : ∀ ch ∈ s, ch ≠ '\n')
    (hxnone : ∀ j, j + (str "### " ++ s).length ≤ x.length →
      occAt x (str "### " ++ s) j = false)
    (hynone : ∀ j, occAt y (str "### " ++ s) j = false) (p : Nat) :
    occAt (x ++ ('\n' :: '#' :: '#' :: '#' :: ' ' :: (s ++ mid ++ y)))
      (str "### " ++ s) p = true ↔ p = x.length + 1 := by
  have hhdrc : str "### " ++ s = '#' :: '#' :: '#' :: ' ' :: s := by rw [str_hdr]; rfl
  have hhdrne : str "### " ++ s ≠ [] := by rw [hhdrc]; simp
  have hnl : ∀ ch, ('\n' :: '#' :: '#' :: '#' :: ' ' :: (s ++ mid ++ y)).head? = some ch →
      ch ∉ str "### " ++ s := by
    intro ch hch
    simp only [List.head?_cons, Option.some.injEq] at hch
    subst hch
    rw [hhdrc]
    intro hmem
    simp only [List.mem_cons] at hmem
    rcases hmem with h | h | h | h | h
    · exact absurd h (by decide)
    · exact absurd h (by decide)
    · exact absurd h (by decide)
    · exact absurd h (by decide)
    · exact hsN _ h rfl
  constructor
  · intro hp
    rcases (occAt_append_split x _ (str "### " ++ s) hhdrne hnl p).mp hp with
      ⟨hle, hocc⟩ | ⟨hge, hocc⟩
    · rw [hxnone p hle] at hocc
      cases hocc
    · by_cases hq : p - x.length < 5 + s.length + mid.length
      · have := (occAt_entry_front s mid y (p - x.length) hsH hmidH hq).mp hocc
        omega
      · exfalso
        have hlen : ('\n' :: '#' :: '#' :: '#' :: ' ' :: (s ++ mid)).length =
            5 + s.length + mid.length := by
          simp [List.length_append]
          omega
        have hsplit : ('\n' :: '#' :: '#' :: '#' :: ' ' :: (s ++ mid ++ y)) =
            ('\n' :: '#' :: '#' :: '#' :: ' ' :: (s ++ mid)) ++ y := by
          simp [List.append_assoc]
        rw [hsplit] at hocc
        rw [show p - x.length = ('\n' :: '#' :: '#' :: '#' :: ' ' :: (s ++ mid)).length +
            (p - x.length - (5 + s.length + mid.length)) from by rw [hlen]; omega] at hocc
        rw [occAt_append_right] at hocc
        rw [hynone] at hocc
        cases hocc
  · intro hp
    subst hp
    rw [occAt_append_right]
    exact (occAt_entry_front s mid y 1 hsH hmidH (by omega)).mpr rfl

/-- C5 amended: when the instructions document holds the header text
`"### " ++ s` at exactly one position and the section name, date,
contents and rationales are plain single-line text, two successive
`learn` calls with that section name both report `"replaced"`; the bytes
before the section (`doc₀.take i`) and after the replaced block (`b`)
are preserved across both calls, and the final document holds the header
at exactly one position. -/
theorem c5_section_replace_amended
    (root ts s r₁ c₁ r₂ c₂ meFp doc₀ : Str) (σ : Store) (i : Nat)
    (hv : validatePath root (str "me") = .ok meFp)
    (hm : Store.get σ meFp = some doc₀)
    (hi : occAt doc₀ (str "### " ++ s) i = true)
    (huniq : ∀ j, occAt doc₀ (str "### " ++ s) j = true → j = i)
    (hs : avoids s ['\n', '#', '$'])
    (hd : avoids (dateOf ts) ['\n', '#', '$'])
    (hr₁ : avoids r₁ ['\n', '#', '-', '$']) (hc₁ : avoids c₁ ['\n', '#', '-', '$'])
    (hr₂ : avoids r₂ ['\n', '#', '-', '$']) (hc₂ : avoids c₂ ['\n', '#', '-', '$']) :
    ∃ b : Str,
      learnAction (learn root ts s c₁ r₁ σ) = str "replaced"
      ∧ learnAction (learn root ts s c₂ r₂ (learn root ts s c₁ r₁ σ).2) = str "replaced"
      ∧ contentAt (learn root ts s c₁ r₁ σ).2 meFp =
          doc₀.take i ++ learningEntry s ts r₁ c₁ ++ b
      ∧ contentAt (learn root ts s c₂ r₂ (learn root ts s c₁ r₁ σ).2).2 meFp =
          doc₀.take i ++ '\n' :: (learningEntry s ts r₂ c₂ ++ '\n' :: b)
      ∧ ∀ p, occAt (contentAt (learn root ts s c₂ r₂ (learn root ts s c₁ r₁ σ).2).2 meFp)
          (str "### " ++ s) p = true ↔ p = i + 2 := by
  have hsH : ∀ ch ∈ s, ch ≠ '#' := by
    intro ch hch h'; subst h'; exact hs _ hch (by decide)
  have hsN : ∀ ch ∈ s, ch ≠ '\n' := by
    intro ch hch h'; subst h'; exact hs _ hch (by decide)
  have hsD : ∀ ch ∈ s, ch ≠ '$' := by
    intro ch hch h'; subst h'; exact hs _ hch (by decide)
  have hdH : ∀ ch ∈ dateOf ts, ch ≠ '#' := by
    intro ch hch h'; subst h'; exact hd _ hch (by decide)
  have hdN : ∀ ch ∈ dateOf ts, ch ≠ '\n' := by
    intro ch hch h'; subst h'; exact hd _ hch (by decide)
  have hdD : ∀ ch ∈ dateOf ts, ch ≠ '$' := by
    intro ch hch h'; subst h'; exact hd _ hch (by decide)
  have hr₁H : ∀ ch ∈ r₁, ch ≠ '#' := by
    intro ch hch h'; subst h'; exact hr₁ _ hch (by decide)
  have hr₁N : ∀ ch ∈ r₁, ch ≠ '\n' := by
    intro ch hch h'; subst h'; exact hr₁ _ hch (by decide)
  have hr₁D : ∀ ch ∈ r₁, ch ≠ '$' := by
    intro ch hch h'; subst h'; exact hr₁ _ hch (by decide)
  have hc₁H : ∀ ch ∈ c₁, ch ≠ '#' := by
    intro ch hch h'; subst h'; exact hc₁ _ hch (by decide)
  have hc₁N : ∀ ch ∈ c₁, ch ≠ '\n' := by
    intro ch hch h'; subst h'; exact hc₁ _ hch (by decide)
  have hc₁D : ∀ ch ∈ c₁, ch ≠ '$' := by
    intro ch hch h'; subst h'; exact hc₁ _ hch (by decide)
  have hr₂H : ∀ ch ∈ r₂, ch ≠ '#' := by
    intro ch hch h'; subst h'; exact hr₂ _ hch (by decide)
  have hr₂N : ∀ ch ∈ r₂, ch ≠ '\n' := by
    intro ch hch h'; subst h'; exact hr₂ _ hch (by decide)
  have hr₂D : ∀ ch ∈ r₂, ch ≠ '$' := by
    intro ch hch h'; subst h'; exact hr₂ _ hch (by decide)
  have hc₂H : ∀ ch ∈ c₂, ch ≠ '#' := by
    intro ch hch h'; subst h'; exact hc₂ _ hch (by decide)
  have hc₂N : ∀ ch ∈ c₂, ch ≠ '\n' := by
    intro ch hch h'; subst h'; exact hc₂ _ hch (by decide)
  have hc₂D : ∀ ch ∈ c₂, ch ≠ '$' := by
    intro ch hch h'; subst h'; exact hc₂ _ hch (by decide)
  have hc₁h : ∀ ch, c₁.head? = some ch → ch ≠ '-' ∧ ch ≠ '#' := by
    intro ch hch
    have hmem : ch ∈ c₁ := List.mem_of_mem_head? (by rw [hch]; rfl)
    exact ⟨fun h' => by subst h'; exact hc₁ _ hmem (by decide),
           fun h' => by subst h'; exact hc₁ _ hmem (by decide)⟩
  have hmid₁H := no_hash_interior (dateOf ts) r₁ c₁ hdH hr₁H hc₁H
  have hmid₂H := no_hash_interior (dateOf ts) r₂ c₂ hdH hr₂H hc₂H
  have hhdrc : str "### " ++ s = '#' :: '#' :: '#' :: ' ' :: s := by rw [str_hdr]; rfl
  have hhdrne : str "### " ++ s ≠ [] := by rw [hhdrc]; simp
  have hL : (str "### " ++ s).length = 4 + s.length := by
    rw [hhdrc]
    simp
    omega
  have h11 : (str " - Updated ").length = 11 := rfl
  have h17 : (str "\n\n**Rationale**: ").length = 17 := rfl
  have h22 : (str "\n\n").length = 2 := rfl
  have h7 : (str "\n\n---\n\n").length = 7 := rfl
  have hipref : isPref (str "### " ++ s) (doc₀.drop i) = true := hi
  have hle := isPref_length_le hipref
  rw [List.length_drop] at hle
  have hbound : i + (4 + s.length) ≤ doc₀.length := by rw [hL] at hle; omega
  have ha : (doc₀.take i).length = i := by rw [List.length_take]; omega
  have hfind₁ : findSubstr doc₀ (str "### " ++ s) = some i := findSubstr_of_unique hi huniq
  obtain ⟨t1, t2, ht₁⟩ :
      ∃ t1 t2, findTermAux (doc₀.drop (i + (str "### " ++ s).length)) = (t1, t2) :=
    ⟨_, _, rfl⟩
  have hdol₁ := no_dollar_entry s ts r₁ c₁ hsD hdD hr₁D hc₁D
  have hdol₂ := no_dollar_entry s ts r₂ c₂ hsD hdD hr₂D hc₂D
  have hcall₁ := learn_eval root ts s c₁ r₁ meFp doc₀ σ i t1 t2 hv hm hfind₁ ht₁ hdol₁
  have hσ₁ : (learn root ts s c₁ r₁ σ).2 =
      σ.set meFp (doc₀.take i ++ learningEntry s ts r₁ c₁ ++
        doc₀.drop (i + (str "### " ++ s).length + t1 + t2)) := by rw [hcall₁]
  have hxnone₁ : ∀ j, j + (str "### " ++ s).length ≤ (doc₀.take i).length →
      occAt (doc₀.take i) (str "### " ++ s) j = false := by
    intro j hj
    rw [ha] at hj
    rcases hobs : occAt (doc₀.take i) (str "### " ++ s) j with _ | _
    · rfl
    · exfalso
      rw [occAt_take doc₀ (str "### " ++ s) j i hj] at hobs
      have := huniq j hobs
      omega
  have hynone₁ : ∀ j,
      occAt (doc₀.drop (i + (str "### " ++ s).length + t1 + t2))
        (str "### " ++ s) j = false := by
    intro j
    rcases hobs : occAt (doc₀.drop (i + (str "### " ++ s).length + t1 + t2))
        (str "### " ++ s) j with _ | _
    · rfl
    · exfalso
      rw [occAt_drop] at hobs
      have := huniq _ hobs
      omega
  have hform₁ : doc₀.take i ++ learningEntry s ts r₁ c₁ ++
      doc₀.drop (i + (str "### " ++ s).length + t1 + t2) =
      doc₀.take i ++ ('\n' :: '#' :: '#' :: '#' :: ' ' ::
        (s ++ entryInterior (dateOf ts) r₁ c₁ ++
          doc₀.drop (i + (str "### " ++ s).length + t1 + t2))) := by
    rw [learningEntry_decomp]
    simp [List.append_assoc]
  have hocc₁iff : ∀ p,
      occAt (doc₀.take i ++ learningEntry s ts r₁ c₁ ++
        doc₀.drop (i + (str "### " ++ s).length + t1 + t2))
        (str "### " ++ s) p = true ↔ p = i + 1 := by
    intro p
    rw [hform₁]
    rw [occ_block_unique s (entryInterior (dateOf ts) r₁ c₁) (doc₀.take i)
      (doc₀.drop (i + (str "### " ++ s).length + t1 + t2))
      hsH hmid₁H hsN hxnone₁ hynone₁ p]
    rw [ha]
  have hfind₂ : findSubstr (doc₀.take i ++ learningEntry s ts r₁ c₁ ++
      doc₀.drop (i + (str "### " ++ s).length + t1 + t2))
      (str "### " ++ s) = some (i + 1) :=
    findSubstr_of_unique ((hocc₁iff (i + 1)).mpr rfl) (fun j hj => (hocc₁iff j).mp hj)
  have hm₂ : Store.get (σ.set meFp (doc₀.take i ++ learningEntry s ts r₁ c₁ ++
      doc₀.drop (i + (str "### " ++ s).length + t1 + t2))) meFp =
      some (doc₀.take i ++ learningEntry s ts r₁ c₁ ++
        doc₀.drop (i + (str "### " ++ s).length + t1 + t2)) :=
    Store.get_set_same σ meFp _
  have hstep : (doc₀.take i ++ learningEntry s ts r₁ c₁ ++
      doc₀.drop (i + (str "### " ++ s).length + t1 + t2)).drop
        (i + 1 + (str "### " ++ s).length) =
      entryInterior (dateOf ts) r₁ c₁ ++
        doc₀.drop (i + (str "### " ++ s).length + t1 + t2) := by
    have hP : learningEntry s ts r₁ c₁ =
        (['\n', '#', '#', '#', ' '] ++ s) ++ entryInterior (dateOf ts) r₁ c₁ := by
      rw [learningEntry_decomp]
      simp [List.append_assoc]
    rw [hP]
    rw [show doc₀.take i ++ ((['\n', '#', '#', '#', ' '] ++ s) ++
        entryInterior (dateOf ts) r₁ c₁) ++
        doc₀.drop (i + (str "### " ++ s).length + t1 + t2) =
      (doc₀.take i ++ (['\n', '#', '#', '#', ' '] ++ s)) ++
        (entryInterior (dateOf ts) r₁ c₁ ++
          doc₀.drop (i + (str "### " ++ s).length + t1 + t2)) from by
      simp [List.append_assoc]]
    rw [show i + 1 + (str "### " ++ s).length =
        (doc₀.take i ++ (['\n', '#', '#', '#', ' '] ++ s)).length from by
      simp [List.length_append, ha, hL]
      omega]
    exact List.drop_left _ _
  have ht₂ : findTermAux ((doc₀.take i ++ learningEntry s ts r₁ c₁ ++
      doc₀.drop (i + (str "### " ++ s).length + t1 + t2)).drop
        (i + 1 + (str "### " ++ s).length)) =
      (31 + (dateOf ts).length + r₁.length + c₁.length, 5) := by
    rw [hstep]
    exact findTermAux_interior (dateOf ts) r₁ c₁ _ hdN hr₁N hc₁N hc₁h
  have hcall₂ := learn_eval root ts s c₂ r₂ meFp
    (doc₀.take i ++ learningEntry s ts r₁ c₁ ++
      doc₀.drop (i + (str "### " ++ s).length + t1 + t2))
    (σ.set meFp (doc₀.take i ++ learningEntry s ts r₁ c₁ ++
      doc₀.drop (i + (str "### " ++ s).length + t1 + t2)))
    (i + 1) (31 + (dateOf ts).length + r₁.length + c₁.length) 5
    hv hm₂ hfind₂ ht₂ hdol₂
  have htake : (doc₀.take i ++ learningEntry s ts r₁ c₁ ++
      doc₀.drop (i + (str "### " ++ s).length + t1 + t2)).take (i + 1) =
      doc₀.take i ++ ['\n'] := by
    rw [learningEntry_decomp]
    rw [List.append_assoc, List.take_append_eq_append_take]
    rw [List.take_of_length_le (by rw [ha]; omega)]
    rw [show i + 1 - (doc₀.take i).length = 1 from by rw [ha]; omega]
    rfl
  have hdropm₂ : (doc₀.take i ++ learningEntry s ts r₁ c₁ ++
      doc₀.drop (i + (str "### " ++ s).length + t1 + t2)).drop
        (i + 1 + (str "### " ++ s).length +
          (31 + (dateOf ts).length + r₁.length + c₁.length) + 5) =
      '\n' :: doc₀.drop (i + (str "### " ++ s).length + t1 + t2) := by
    have hsplit₂ : doc₀.take i ++ learningEntry s ts r₁ c₁ ++
        doc₀.drop (i + (str "### " ++ s).length + t1 + t2) =
      (doc₀.take i ++ (['\n', '#', '#', '#', ' '] ++ s) ++
        (str " - Updated " ++ dateOf ts ++ str "\n\n**Rationale**: " ++ r₁ ++
          str "\n\n" ++ c₁)) ++
        (str "\n\n---\n\n" ++ doc₀.drop (i + (str "### " ++ s).length + t1 + t2)) := by
      rw [learningEntry_decomp]
      simp [entryInterior, List.append_assoc]
    rw [hsplit₂, List.drop_append_eq_append_drop]
    have hlen₂ : (doc₀.take i ++ (['\n', '#', '#', '#', ' '] ++ s) ++
        (str " - Updated " ++ dateOf ts ++ str "\n\n**Rationale**: " ++ r₁ ++
          str "\n\n" ++ c₁)).length =
        i + 35 + s.length + (dateOf ts).length + r₁.length + c₁.length := by
      simp [List.length_append, ha, h11, h17, h22]
      omega
    rw [List.drop_eq_nil_of_le (by rw [hlen₂, hL]; omega)]
    rw [show i + 1 + (str "### " ++ s).length +
        (31 + (dateOf ts).length + r₁.length + c₁.length) + 5 -
        (doc₀.take i ++ (['\n', '#', '#', '#', ' '] ++ s) ++
          (str " - Updated " ++ dateOf ts ++ str "\n\n**Rationale**: " ++ r₁ ++
            str "\n\n" ++ c₁)).length = 6 from by rw [hlen₂, hL]; omega]
    rw [List.nil_append, List.drop_append_eq_append_drop]
    rw [show (str "\n\n---\n\n").drop 6 = ['\n'] from rfl]
    rw [show 6 - (str "\n\n---\n\n").length = 0 from by rw [h7]]
    rfl
  have hdoc₂ : contentAt (learn root ts s c₂ r₂ (learn root ts s c₁ r₁ σ).2).2 meFp =
      doc₀.take i ++ '\n' :: (learningEntry s ts r₂ c₂ ++
        '\n' :: doc₀.drop (i + (str "### " ++ s).length + t1 + t2)) := by
    rw [hσ₁, hcall₂]
    simp only [contentAt, Store.get_set_same, Option.getD_some]
    rw [htake, hdropm₂]
    simp [List.append_assoc]
  have hocc₂iff : ∀ p,
      occAt (contentAt (learn root ts s c₂ r₂ (learn root ts s c₁ r₁ σ).2).2 meFp)
        (str "### " ++ s) p = true ↔ p = i + 2 := by
    intro p
    rw [hdoc₂]
    have hxnone₂ : ∀ j, j + (str "### " ++ s).length ≤ (doc₀.take i ++ ['\n']).length →
        occAt (doc₀.take i ++ ['\n']) (str "### " ++ s) j = false := by
      intro j hj
      rcases hobs : occAt (doc₀.take i ++ ['\n']) (str "### " ++ s) j with _ | _
      · rfl
      · exfalso
        have hblock : ∀ ch, (['\n'] : Str).head? = some ch → ch ∉ str "### " ++ s := by
          intro ch hch
          simp only [List.head?_cons, Option.some.injEq] at hch
          subst hch
          rw [hhdrc]
          intro hmem
          simp only [List.mem_cons] at hmem
          rcases hmem with h | h | h | h | h
          · exact absurd h (by decide)
          · exact absurd h (by decide)
          · exact absurd h (by decide)
          · exact absurd h (by decide)
          · exact hsN _ h rfl
        rcases (occAt_append_split (doc₀.take i) ['\n'] (str "### " ++ s)
            hhdrne hblock j).mp hobs with ⟨hle', ho⟩ | ⟨hge', ho⟩
        · rw [hxnone₁ j hle'] at ho
          cases ho
        · have hlp := isPref_length_le ho
          rw [List.length_drop] at hlp
          simp only [List.length_singleton] at hlp
          omega
    have hynone₂ : ∀ j,
        occAt ('\n' :: doc₀.drop (i + (str "### " ++ s).length + t1 + t2))
          (str "### " ++ s) j = false := by
      intro j
      cases j with
      | zero =>
        show isPref (str "### " ++ s) _ = false
        rw [List.drop_zero, hhdrc]
        rfl
      | succ q =>
        show isPref (str "### " ++ s)
          (('\n' :: doc₀.drop (i + (str "### " ++ s).length + t1 + t2)).drop
            (q + 1)) = false
        rw [List.drop_succ_cons]
        exact hynone₁ q
    have hform₂ : doc₀.take i ++ '\n' :: (learningEntry s ts r₂ c₂ ++
        '\n' :: doc₀.drop (i + (str "### " ++ s).length + t1 + t2)) =
      (doc₀.take i ++ ['\n']) ++ ('\n' :: '#' :: '#' :: '#' :: ' ' ::
        (s ++ entryInterior (dateOf ts) r₂ c₂ ++
          ('\n' :: doc₀.drop (i + (str "### " ++ s).length + t1 + t2)))) := by
      rw [learningEntry_decomp]
      simp [List.append_assoc]
    rw [hform₂]
    rw [occ_block_unique s (entryInterior (dateOf ts) r₂ c₂) (doc₀.take i ++ ['\n'])
      ('\n' :: doc₀.drop (i + (str "### " ++ s).length + t1 + t2))
      hsH hmid₂H hsN hxnone₂ hynone₂ p]
    rw [show (doc₀.take i ++ ['\n'] : Str).length + 1 = i + 2 from by
      simp [List.length_append, ha]]
  exact ⟨doc₀.drop (i + (str "### " ++ s).length + t1 + t2),
    by rw [hcall₁]; rfl,
    by rw [hσ₁, hcall₂]; rfl,
    by rw [hcall₁]; simp [contentAt, Store.get_set_same],
    hdoc₂, hocc₂iff⟩

/-- Witness for `c5_section_replace_amended`: updating section `B` in a
document that holds `### B` exactly once reports a replacement. -/
theorem c5_section_replace_amended_witness :
    learnAction (learn (str "/m") (str "2025-06-01T00:00:00Z") (str "B") (str "new")
      (str "why") [(str "/m/me.md", str "### B old\n\n---\n\nkeep")]) =
      str "replaced" := by
  obtain ⟨b, h1, h2, h3, h4, h5⟩ :=
    c5_section_replace_amended (str "/m") (str "2025-06-01T00:00:00Z") (str "B")
      (str "why") (str "new") (str "again") (str "more") (str "/m/me.md")
      (str "### B old\n\n---\n\nkeep")
      [(str "/m/me.md", str "### B old\n\n---\n\nkeep")] 0
      (by decide) (by decide) (by decide)
      (occ_unique_of_bounded (by decide) (by decide))
      (by decide) (by decide) (by decide) (by decide) (by decide) (by decide)
  exact h1
